import Mathlib

/-!
# Verification of `rust_wm` (MarkusIfquil/rust_wm)

Shallow embedding of the window-manager's state machine and tiling engine,
plus proofs about the embedded operations.

Conventions of the embedding:

* Machine integers (`u16`, `i16`, `u32`, `usize`) are embedded as `ℤ` or `ℕ`.
  Rust `as` casts, which are total (saturating for float→int, two's-complement
  wrap for int→int), are modelled explicitly by `u16OfF32`, `i16OfF32`,
  `wrapU16`, `wrapI16`.  Plain `+`/`-`/`*` on sized integers panic on overflow
  in a debug build, so they are embedded as exact integer arithmetic and every
  theorem that needs it carries hypotheses keeping the values in range.
* `f32` arithmetic is embedded faithfully over `ℚ`: an `f32` value is the
  exact rational it denotes, and every `f32` operation rounds its exact
  result with binary32 round-to-nearest-even (`RustWm.f32round`: 24-bit
  significand, minimum normal exponent `-126`, so the subnormal grid is
  `2^-149`; overflow past `2^128` is not modelled — the program's float
  quantities stay below `2^17`).
* Fallible operations (`expect`, X replies) are embedded with `Option`.
-/

namespace RustWm

/-- Truncation toward zero of a rational, the rounding used by Rust's
float-to-int `as` casts. -/
def ratTrunc (q : ℚ) : ℤ := if 0 ≤ q then ⌊q⌋ else ⌈q⌉

/-- Rust `f32 as u16`: saturating truncation into `[0, 65535]`. -/
def u16OfF32 (q : ℚ) : ℤ := max 0 (min 65535 (ratTrunc q))

/-- Rust `f32 as i16`: saturating truncation into `[-32768, 32767]`. -/
def i16OfF32 (q : ℚ) : ℤ := max (-32768) (min 32767 (ratTrunc q))

/-- Rust integer `as u16`: keep the low 16 bits. -/
def wrapU16 (z : ℤ) : ℤ := z % 65536

/-- Rust integer `as i16`: low 16 bits, two's complement. -/
def wrapI16 (z : ℤ) : ℤ := (z + 32768) % 65536 - 32768

theorem ratTrunc_eq_floor {q : ℚ} (h : 0 ≤ q) : ratTrunc q = ⌊q⌋ := by
  simp [ratTrunc, h]

theorem u16OfF32_eq_floor {q : ℚ} (h0 : 0 ≤ q) (h1 : q < 65536) :
    u16OfF32 q = ⌊q⌋ := by
  have hf0 : (0 : ℤ) ≤ ⌊q⌋ := Int.le_floor.mpr (by exact_mod_cast h0)
  have hf1 : ⌊q⌋ < 65536 := Int.floor_lt.mpr (by exact_mod_cast h1)
  simp [u16OfF32, ratTrunc_eq_floor h0]
  omega

theorem i16OfF32_eq_floor {q : ℚ} (h0 : 0 ≤ q) (h1 : q < 32768) :
    i16OfF32 q = ⌊q⌋ := by
  have hf0 : (0 : ℤ) ≤ ⌊q⌋ := Int.le_floor.mpr (by exact_mod_cast h0)
  have hf1 : ⌊q⌋ < 32768 := Int.floor_lt.mpr (by exact_mod_cast h1)
  simp [i16OfF32, ratTrunc_eq_floor h0]
  omega

theorem wrapU16_eq {z : ℤ} (h0 : 0 ≤ z) (h1 : z < 65536) : wrapU16 z = z := by
  simp [wrapU16]
  omega

theorem wrapI16_eq {z : ℤ} (h0 : -32768 ≤ z) (h1 : z ≤ 32767) : wrapI16 z = z := by
  have : (z + 32768) % 65536 = z + 32768 := by omega
  simp [wrapI16, this]

/-- Nearest integer to a rational, ties to even: the integer rounding of
IEEE 754 round-to-nearest. -/
def nearestEvenInt (m : ℚ) : ℤ :=
  if m - ⌊m⌋ < 1/2 then ⌊m⌋
  else if 1/2 < m - ⌊m⌋ then ⌊m⌋ + 1
  else if ⌊m⌋ % 2 = 0 then ⌊m⌋ else ⌊m⌋ + 1

/-- Round `q` to the nearest integer multiple of `2^p`, ties to even. -/
def rneMul (q : ℚ) (p : ℤ) : ℚ := (nearestEvenInt (q / 2 ^ p) : ℚ) * 2 ^ p

/-- IEEE 754 binary32 round-to-nearest-even of a real (rational) value:
24-bit significand, minimum normal exponent `-126` (so the subnormal grid
is `2^-149`).  Overflow past `2^128` is not modelled; every f32 value the
program produces stays far below it. -/
def f32round (q : ℚ) : ℚ :=
  if q = 0 then 0
  else rneMul q (max (Int.log 2 |q|) (-126) - 23)

/-- Rust `f32` addition. -/
def fadd (a b : ℚ) : ℚ := f32round (a + b)

/-- Rust `f32` subtraction. -/
def fsub (a b : ℚ) : ℚ := f32round (a - b)

/-- Rust `f32` multiplication. -/
def fmul (a b : ℚ) : ℚ := f32round (a * b)

theorem nearestEvenInt_intCast (n : ℤ) : nearestEvenInt (n : ℚ) = n := by
  unfold nearestEvenInt
  rw [Int.floor_intCast]
  norm_num

theorem nearestEvenInt_sub_le (z : ℚ) :
    |((nearestEvenInt z : ℤ) : ℚ) - z| ≤ 1/2 := by
  have h1 : ((⌊z⌋ : ℤ) : ℚ) ≤ z := Int.floor_le z
  have h2 : z < ((⌊z⌋ : ℤ) : ℚ) + 1 := Int.lt_floor_add_one z
  unfold nearestEvenInt
  split_ifs with ha hb hc
  all_goals rw [abs_le]; push_cast; push_cast at ha; constructor <;> linarith

theorem nearestEvenInt_abs_le (z : ℚ) :
    |((nearestEvenInt z : ℤ) : ℚ)| ≤ |z| + 1/2 := by
  have h := nearestEvenInt_sub_le z
  have h3 := abs_add (((nearestEvenInt z : ℤ) : ℚ) - z) z
  rw [sub_add_cancel] at h3
  linarith

theorem abs_le_nearestEvenInt_add (z : ℚ) :
    |z| ≤ |((nearestEvenInt z : ℤ) : ℚ)| + 1/2 := by
  have h := nearestEvenInt_sub_le z
  have h3 := abs_add (z - ((nearestEvenInt z : ℤ) : ℚ)) ((nearestEvenInt z : ℤ) : ℚ)
  rw [sub_add_cancel] at h3
  rw [abs_sub_comm] at h
  linarith

theorem int_log2_eq {q : ℚ} {e : ℤ} (h0 : 0 < q) (h1 : (2:ℚ) ^ e ≤ q)
    (h2 : q < (2:ℚ) ^ (e + 1)) : Int.log 2 q = e := by
  have hb : (1:ℕ) < 2 := one_lt_two
  have h1' : ((2:ℕ):ℚ) ^ e ≤ q := by exact_mod_cast h1
  have h2' : q < ((2:ℕ):ℚ) ^ (e + 1) := by exact_mod_cast h2
  have hle := (Int.zpow_le_iff_le_log hb h0).mp h1'
  have hlt := (Int.lt_zpow_iff_log_lt hb h0).mp h2'
  omega

/-- Rounding to a grid that the value already sits on is exact. -/
theorem rneMul_intMul {q : ℚ} {p : ℤ} {z : ℤ} (h : q / 2 ^ p = (z : ℚ)) :
    rneMul q p = q := by
  have hp : (2:ℚ) ^ p ≠ 0 := zpow_ne_zero p two_ne_zero
  unfold rneMul
  rw [h, nearestEvenInt_intCast, ← h, div_mul_cancel₀ q hp]

/-- Rounding `m · 2^t` to a grid at least as fine as `2^t` is exact. -/
theorem rneMul_fix {q : ℚ} (m t P : ℤ) (hq : q = (m : ℚ) * 2 ^ t) (hPt : P ≤ t) :
    rneMul q P = q := by
  have hnn : 0 ≤ t - P := by omega
  have hp2 : (2:ℚ) ^ P ≠ 0 := zpow_ne_zero _ two_ne_zero
  have hcalc : q / 2 ^ P = ((m * 2 ^ (t - P).toNat : ℤ) : ℚ) := by
    rw [div_eq_iff hp2, hq]
    push_cast
    rw [← zpow_natCast (2:ℚ) (t - P).toNat, Int.toNat_of_nonneg hnn, mul_assoc,
        ← zpow_add₀ (two_ne_zero : (2:ℚ) ≠ 0), sub_add_cancel]
  exact rneMul_intMul hcalc

/-- A rational `m · 2^t` with `|m| ≤ 2^24` and `t ≥ -149` is an exact
binary32 value: `f32round` fixes it. -/
theorem f32round_eq_self {q : ℚ} (m t : ℤ) (hq : q = (m : ℚ) * 2 ^ t)
    (hm : |m| ≤ 16777216) (ht : -149 ≤ t) : f32round q = q := by
  rcases eq_or_ne q 0 with h0 | h0
  · rw [h0]; simp [f32round]
  · have h2t : (0:ℚ) < 2 ^ t := zpow_pos two_pos t
    have habs : |q| = ((|m| : ℤ) : ℚ) * 2 ^ t := by
      rw [hq, abs_mul, abs_of_pos h2t, Int.cast_abs]
    have habs0 : (0:ℚ) < |q| := abs_pos.mpr h0
    have hqle : |q| ≤ (2:ℚ) ^ ((24:ℤ) + t) := by
      rw [habs, zpow_add₀ (two_ne_zero : (2:ℚ) ≠ 0)]
      have hmQ : ((|m| : ℤ) : ℚ) ≤ (2:ℚ) ^ (24:ℤ) := by
        have h24 : ((2:ℚ) ^ (24:ℤ)) = ((16777216 : ℤ) : ℚ) := by norm_num
        rw [h24]; exact_mod_cast hm
      exact mul_le_mul_of_nonneg_right hmQ (le_of_lt h2t)
    have hlog : Int.log 2 |q| ≤ 24 + t := by
      by_contra hc
      push_neg at hc
      have h25 : (25 + t) ≤ Int.log 2 |q| := by omega
      have hge := (Int.zpow_le_iff_le_log one_lt_two habs0).mpr h25
      have hlt : ((2:ℕ):ℚ) ^ ((24:ℤ) + t) < ((2:ℕ):ℚ) ^ (25 + t) :=
        zpow_lt_zpow_right₀ (by norm_num) (by omega)
      have hle' : |q| ≤ ((2:ℕ):ℚ) ^ ((24:ℤ) + t) := by exact_mod_cast hqle
      linarith
  -- the rounding grid exponent is at most t + 1
    have hmaxlb := le_max_right (Int.log 2 |q|) (-126)
    have hmaxub : max (Int.log 2 |q|) (-126) ≤ 24 + t := by
      rcases max_cases (Int.log 2 |q|) (-126) with ⟨hmx, _⟩ | ⟨hmx, _⟩ <;> omega
    unfold f32round
    rw [if_neg h0]
    rcases le_or_lt (max (Int.log 2 |q|) (-126) - 23) t with hpt | hpt
    · exact rneMul_fix m t _ hq hpt
    · -- boundary case: the grid is 2^(t+1) and |m| = 2^24, so q = ±2^23 · 2^(t+1)
      have hloge : Int.log 2 |q| = t + 24 := by
        rcases max_cases (Int.log 2 |q|) (-126) with ⟨hmx, _⟩ | ⟨hmx, _⟩ <;> omega
      have hge0 := Int.zpow_log_le_self one_lt_two habs0
      rw [hloge] at hge0
      have hge : (2:ℚ) ^ ((24:ℤ) + t) ≤ |q| := by
        have h24t : ((2:ℕ):ℚ) ^ (t + 24) = (2:ℚ) ^ ((24:ℤ) + t) := by
          rw [add_comm t 24]; norm_num
        rw [← h24t]; exact_mod_cast hge0
      have heq : ((|m| : ℤ) : ℚ) * 2 ^ t = (2:ℚ) ^ ((24:ℤ) + t) := by
        rw [← habs]; exact le_antisymm hqle hge
      have hmabs : |m| = 16777216 := by
        have h1 : ((|m| : ℤ) : ℚ) = (2:ℚ) ^ ((24:ℤ) + t) / 2 ^ t := by
          rw [← heq, mul_div_cancel_right₀ _ (ne_of_gt h2t)]
        have h2 : (2:ℚ) ^ ((24:ℤ) + t) / 2 ^ t = (2:ℚ) ^ (24:ℤ) := by
          rw [zpow_add₀ (two_ne_zero : (2:ℚ) ≠ 0), mul_div_cancel_right₀ _ (ne_of_gt h2t)]
        have h3 : ((|m| : ℤ) : ℚ) = ((16777216 : ℤ) : ℚ) := by
          rw [h1, h2]; norm_num
        exact_mod_cast h3
      rcases (abs_eq (by norm_num : (0:ℤ) ≤ 16777216)).mp hmabs with hm' | hm'
      · have hq2 : q = ((8388608 : ℤ) : ℚ) * 2 ^ (t + 1) := by
          rw [hq, hm', zpow_add₀ (two_ne_zero : (2:ℚ) ≠ 0) t 1, zpow_one]
          push_cast
          ring
        exact rneMul_fix 8388608 (t + 1) _ hq2 (by omega)
      · have hq2 : q = ((-8388608 : ℤ) : ℚ) * 2 ^ (t + 1) := by
          rw [hq, hm', zpow_add₀ (two_ne_zero : (2:ℚ) ≠ 0) t 1, zpow_one]
          push_cast
          ring
        exact rneMul_fix (-8388608) (t + 1) _ hq2 (by omega)

/-- Every nonzero `f32round` output is `m · 2^grid` with `|m| ≤ 2^24`. -/
theorem f32round_dyadic (x : ℚ) (hx : x ≠ 0) :
    ∃ m : ℤ, f32round x = (m : ℚ) * 2 ^ (max (Int.log 2 |x|) (-126) - 23)
      ∧ |m| ≤ 16777216 := by
  refine ⟨nearestEvenInt (x / 2 ^ (max (Int.log 2 |x|) (-126) - 23)), ?_, ?_⟩
  · unfold f32round rneMul
    rw [if_neg hx]
  · have habs0 : (0:ℚ) < |x| := abs_pos.mpr hx
    have h1 : |x| < ((2:ℕ):ℚ) ^ (Int.log 2 |x| + 1) :=
      Int.lt_zpow_succ_log_self one_lt_two |x|
    have h2 : ((2:ℕ):ℚ) ^ (Int.log 2 |x| + 1)
        ≤ ((2:ℕ):ℚ) ^ (max (Int.log 2 |x|) (-126) + 1) := by
      have := le_max_left (Int.log 2 |x|) (-126)
      exact zpow_le_zpow_right₀ (by norm_num) (by omega)
    have h3 : |x| < (2:ℚ) ^ (max (Int.log 2 |x|) (-126) + 1) := by
      have := lt_of_lt_of_le h1 h2
      exact_mod_cast this
    have hPpos : (0:ℚ) < 2 ^ (max (Int.log 2 |x|) (-126) - 23) := zpow_pos two_pos _
    have hdiv : |x / 2 ^ (max (Int.log 2 |x|) (-126) - 23)| < (2:ℚ) ^ (24:ℤ) := by
      rw [abs_div, abs_of_pos hPpos, div_lt_iff₀ hPpos,
          ← zpow_add₀ (two_ne_zero : (2:ℚ) ≠ 0)]
      have he : (24:ℤ) + (max (Int.log 2 |x|) (-126) - 23)
          = max (Int.log 2 |x|) (-126) + 1 := by ring
      rw [he]; exact h3
    have hb := nearestEvenInt_abs_le (x / 2 ^ (max (Int.log 2 |x|) (-126) - 23))
    have h24 : ((2:ℚ) ^ (24:ℤ)) = 16777216 := by norm_num
    rw [h24] at hdiv
    by_contra hc
    push_neg at hc
    have hcq : (16777217:ℚ) ≤ ((|nearestEvenInt (x / 2 ^ (max (Int.log 2 |x|) (-126) - 23))| : ℤ) : ℚ) := by
      exact_mod_cast (by omega : (16777217:ℤ) ≤ |nearestEvenInt (x / 2 ^ (max (Int.log 2 |x|) (-126) - 23))|)
    rw [Int.cast_abs] at hcq
    linarith

/-- A value whose binade is `2^24` or above rounds to something of absolute
value at least `2^24`. -/
theorem f32round_big (x : ℚ) (hx : x ≠ 0) (hb : 24 ≤ Int.log 2 |x|) :
    16777216 ≤ |f32round x| := by
  have habs0 : (0:ℚ) < |x| := abs_pos.mpr hx
  have hE : max (Int.log 2 |x|) (-126) = Int.log 2 |x| := max_eq_left (by omega)
  have hge0 := Int.zpow_log_le_self one_lt_two habs0
  have hPpos : (0:ℚ) < 2 ^ (Int.log 2 |x| - 23) := zpow_pos two_pos _
  have hdiv : (2:ℚ) ^ (23:ℤ) ≤ |x / 2 ^ (Int.log 2 |x| - 23)| := by
    rw [abs_div, abs_of_pos hPpos, le_div_iff₀ hPpos,
        ← zpow_add₀ (two_ne_zero : (2:ℚ) ≠ 0)]
    have he : (23:ℤ) + (Int.log 2 |x| - 23) = Int.log 2 |x| := by ring
    rw [he]
    exact_mod_cast hge0
  have hnei := abs_le_nearestEvenInt_add (x / 2 ^ (Int.log 2 |x| - 23))
  have h23 : ((2:ℚ) ^ (23:ℤ)) = 8388608 := by norm_num
  rw [h23] at hdiv
  have hZ : (8388608:ℤ) ≤ |nearestEvenInt (x / 2 ^ (Int.log 2 |x| - 23))| := by
    by_contra hc
    push_neg at hc
    have hcq : ((|nearestEvenInt (x / 2 ^ (Int.log 2 |x| - 23))| : ℤ) : ℚ) ≤ 8388607 := by
      exact_mod_cast (by omega : |nearestEvenInt (x / 2 ^ (Int.log 2 |x| - 23))| ≤ (8388607:ℤ))
    rw [Int.cast_abs] at hcq
    linarith
  unfold f32round rneMul
  rw [if_neg hx, hE, abs_mul, abs_of_pos hPpos]
  have hp1 : (2:ℚ) ≤ 2 ^ (Int.log 2 |x| - 23) := by
    have h1 : (2:ℚ) = 2 ^ (1:ℤ) := (zpow_one 2).symm
    have h1le : (1:ℤ) ≤ Int.log 2 |x| - 23 := by omega
    nth_rewrite 1 [h1]
    exact zpow_le_zpow_right₀ (one_le_two : (1:ℚ) ≤ 2) h1le
  have hcast : (8388608:ℚ) ≤ |((nearestEvenInt (x / 2 ^ (Int.log 2 |x| - 23)) : ℤ) : ℚ)| := by
    rw [← Int.cast_abs]
    exact_mod_cast hZ
  calc (16777216:ℚ) = 8388608 * 2 := by norm_num
    _ ≤ |((nearestEvenInt (x / 2 ^ (Int.log 2 |x| - 23)) : ℤ) : ℚ)|
        * 2 ^ (Int.log 2 |x| - 23) := by
      apply mul_le_mul hcast hp1 (by norm_num) (abs_nonneg _)

/-- Subtracting a nonnegative integer from a dyadic on a subinteger grid
stays on the grid with a significand no larger. -/
theorem sub_int_rep {y : ℚ} {m n p : ℤ} (hy : y = (m:ℚ) * 2 ^ p)
    (hp : p ≤ 0) (hm : |m| ≤ 16777216) (h0 : (0:ℚ) ≤ (n:ℚ)) (hn : (n:ℚ) ≤ y) :
    ∃ k : ℤ, y - (n:ℚ) = (k:ℚ) * 2 ^ p ∧ |k| ≤ 16777216 := by
  have h2p : (0:ℚ) < 2 ^ p := zpow_pos two_pos p
  have hpow : ((2:ℚ) ^ ((-p).toNat : ℕ)) * 2 ^ p = 1 := by
    rw [← zpow_natCast (2:ℚ) (-p).toNat, Int.toNat_of_nonneg (by omega),
        ← zpow_add₀ (two_ne_zero : (2:ℚ) ≠ 0), neg_add_cancel, zpow_zero]
  refine ⟨m - n * 2 ^ (-p).toNat, ?_, ?_⟩
  · calc y - (n:ℚ)
        = (m:ℚ) * 2 ^ p - (n:ℚ) * (((2:ℚ) ^ ((-p).toNat : ℕ)) * 2 ^ p) := by
          rw [hpow, mul_one, hy]
      _ = ((m - n * 2 ^ (-p).toNat : ℤ) : ℚ) * 2 ^ p := by push_cast; ring
  · have heq : y - (n:ℚ) = ((m - n * 2 ^ (-p).toNat : ℤ) : ℚ) * 2 ^ p := by
      calc y - (n:ℚ)
          = (m:ℚ) * 2 ^ p - (n:ℚ) * (((2:ℚ) ^ ((-p).toNat : ℕ)) * 2 ^ p) := by
            rw [hpow, mul_one, hy]
        _ = ((m - n * 2 ^ (-p).toNat : ℤ) : ℚ) * 2 ^ p := by push_cast; ring
    have hk0 : (0:ℚ) ≤ ((m - n * 2 ^ (-p).toNat : ℤ) : ℚ) := by
      have h1 : (0:ℚ) ≤ y - (n:ℚ) := by linarith
      rw [heq, mul_comm] at h1
      exact nonneg_of_mul_nonneg_right h1 h2p
    have hkm : ((m - n * 2 ^ (-p).toNat : ℤ) : ℚ) ≤ (m:ℚ) := by
      have h1 : y - (n:ℚ) ≤ y := by linarith
      rw [heq, hy] at h1
      exact le_of_mul_le_mul_right h1 h2p
    have hk0' : (0:ℤ) ≤ m - n * 2 ^ (-p).toNat := by exact_mod_cast hk0
    have hkm' : m - n * 2 ^ (-p).toNat ≤ m := by exact_mod_cast hkm
    have : m ≤ |m| := le_abs_self m
    rw [abs_of_nonneg hk0']
    omega

/-- Subtracting a small nonnegative integer from a small positive
`f32round` output is exact in f32. -/
theorem fsub_round_int_exact (x : ℚ) (n : ℤ) (h0 : 0 ≤ n)
    (hn : (n : ℚ) ≤ f32round x) (hub : f32round x < 32768) :
    fsub (f32round x) (n : ℚ) = f32round x - (n : ℚ) := by
  rcases eq_or_ne x 0 with rfl | hx
  · have hz : f32round (0:ℚ) = 0 := by simp [f32round]
    rw [hz] at hn ⊢
    have hn0 : n = 0 := le_antisymm (by exact_mod_cast hn) h0
    subst hn0
    show f32round ((0:ℚ) - ((0:ℤ):ℚ)) = (0:ℚ) - ((0:ℤ):ℚ)
    norm_num [hz]
  · obtain ⟨m, hm, hm24⟩ := f32round_dyadic x hx
    have hmaxlb := le_max_right (Int.log 2 |x|) (-126)
    rcases eq_or_ne n 0 with rfl | hn0
    · show f32round (f32round x - ((0:ℤ):ℚ)) = f32round x - ((0:ℤ):ℚ)
      rw [Int.cast_zero, sub_zero]
      exact f32round_eq_self m (max (Int.log 2 |x|) (-126) - 23) hm hm24 (by omega)
    · have hp0 : max (Int.log 2 |x|) (-126) - 23 ≤ 0 := by
        by_contra hc
        push_neg at hc
        have hlog24 : 24 ≤ Int.log 2 |x| := by
          rcases max_cases (Int.log 2 |x|) (-126) with ⟨hmx, _⟩ | ⟨hmx, _⟩ <;> omega
        have hbig := f32round_big x hx hlog24
        have hpos : (0:ℚ) < f32round x :=
          lt_of_lt_of_le (by exact_mod_cast (by omega : (0:ℤ) < n)) hn
        rw [abs_of_pos hpos] at hbig
        linarith
      obtain ⟨k, hk, hk24⟩ :=
        sub_int_rep hm hp0 hm24 (by exact_mod_cast h0) hn
      show f32round (f32round x - (n:ℚ)) = f32round x - (n:ℚ)
      exact f32round_eq_self k (max (Int.log 2 |x|) (-126) - 23) hk hk24 (by omega)

/-- Evaluate `f32round` at a concrete positive value that rounds down. -/
theorem f32round_eq_down {q : ℚ} (e k : ℤ) (he : -126 ≤ e)
    (h1 : (2:ℚ) ^ e ≤ q) (h2 : q < (2:ℚ) ^ (e + 1))
    (hd1 : (k : ℚ) ≤ q / 2 ^ (e - 23)) (hd2 : q / 2 ^ (e - 23) < (k : ℚ) + 1/2) :
    f32round q = (k : ℚ) * 2 ^ (e - 23) := by
  have hq0 : 0 < q := lt_of_lt_of_le (zpow_pos two_pos e) h1
  have hqne : q ≠ 0 := ne_of_gt hq0
  have habs : |q| = q := abs_of_pos hq0
  have hlog : Int.log 2 |q| = e := by rw [habs]; exact int_log2_eq hq0 h1 h2
  have hmax : max (Int.log 2 |q|) (-126) = e := by rw [hlog]; exact max_eq_left he
  unfold f32round rneMul
  rw [if_neg hqne, hmax]
  have hfl : ⌊q / 2 ^ (e - 23)⌋ = k :=
    Int.floor_eq_iff.mpr ⟨hd1, by linarith⟩
  have hnei : nearestEvenInt (q / 2 ^ (e - 23)) = k := by
    unfold nearestEvenInt
    rw [hfl, if_pos (by linarith)]
  rw [hnei]

/-- Evaluate `f32round` at a concrete positive value that rounds up. -/
theorem f32round_eq_up {q : ℚ} (e k : ℤ) (he : -126 ≤ e)
    (h1 : (2:ℚ) ^ e ≤ q) (h2 : q < (2:ℚ) ^ (e + 1))
    (hu1 : (k : ℚ) + 1/2 < q / 2 ^ (e - 23)) (hu2 : q / 2 ^ (e - 23) < (k : ℚ) + 1) :
    f32round q = ((k : ℚ) + 1) * 2 ^ (e - 23) := by
  have hq0 : 0 < q := lt_of_lt_of_le (zpow_pos two_pos e) h1
  have hqne : q ≠ 0 := ne_of_gt hq0
  have habs : |q| = q := abs_of_pos hq0
  have hlog : Int.log 2 |q| = e := by rw [habs]; exact int_log2_eq hq0 h1 h2
  have hmax : max (Int.log 2 |q|) (-126) = e := by rw [hlog]; exact max_eq_left he
  unfold f32round rneMul
  rw [if_neg hqne, hmax]
  have hfl : ⌊q / 2 ^ (e - 23)⌋ = k :=
    Int.floor_eq_iff.mpr ⟨by linarith, by linarith⟩
  have hnei : nearestEvenInt (q / 2 ^ (e - 23)) = k + 1 := by
    unfold nearestEvenInt
    rw [hfl, if_neg (by linarith), if_pos (by linarith)]
  rw [hnei]
  push_cast
  ring

/-- A helper used throughout: mapping an indexed transformation over
`l.enum` (`.iter().enumerate().map(...)` in the source) preserves any
projection `g` that the transformation itself preserves. -/
theorem enum_map_preserves {α β : Type} (l : List α) (F : ℕ × α → α) (g : α → β)
    (h : ∀ i w, g (F (i, w)) = g w) :
    (l.enum.map F).map g = l.map g := by
  rw [List.map_map]
  have : l.enum.map (g ∘ F) = l.enum.map (fun p => g p.2) := by
    refine List.map_congr_left ?_
    rintro ⟨i, w⟩ _
    exact h i w
  rw [this]
  have : l.enum.map (fun p => g p.2) = (l.enum.map Prod.snd).map g := by
    rw [List.map_map]; rfl
  rw [this, List.enum_map_snd]

theorem mem_of_getElem?_eq_some {α : Type} {l : List α} {i : ℕ} {a : α}
    (h : l[i]? = some a) : a ∈ l := by
  obtain ⟨h', rfl⟩ := List.getElem?_eq_some.mp h
  exact List.getElem_mem h'

end RustWm

/-! ## `src/state.rs` — the `ManagerState` revision

Embeds `WindowState`, `tile_windows`, `set_last_master_others_stack`,
`replace_vec_in_map`, `redraw_tag` and `change_active_tag` from
`src/state.rs`.  The X side effects (map/unmap/focus requests) do not touch
the store and are dropped from the embedding. -/

namespace StateRs

open RustWm

inductive WindowGroup
  | Master
  | Stack
  | None
  deriving DecidableEq, Repr

/-- Embeds `state.rs::WindowState` (the revision with a `tag` field). -/
structure WindowState where
  window : ℕ
  frame_window : ℕ
  x : ℤ
  y : ℤ
  width : ℤ
  height : ℤ
  group : WindowGroup
  tag : ℕ
  deriving DecidableEq, Repr

/-- The numeric inputs of `tile_windows`: screen size (`u16`), bar height
(`u16`), `mode.spacing` (`i16`) and `mode.ratio_between_master_stack`
(`f32`: an exact binary32 value, embedded as the rational it denotes). -/
structure TilingParams where
  screenW : ℤ
  screenH : ℤ
  barH : ℤ
  spacing : ℤ
  ratio : ℚ
  deriving DecidableEq, Repr

/-- One window of `ManagerState::tile_windows` (state.rs lines 315–395):
the closure given to `.iter().enumerate().map(...)`, with `stack_count`
precomputed and `atag` the active tag. -/
def tileOne (p : TilingParams) (atag : ℕ) (stack_count : ℕ) (i : ℕ)
    (w : WindowState) : WindowState :=
  match w.group with
  | WindowGroup.Master =>
      { window := w.window
        frame_window := w.frame_window
        x := 0 + p.spacing
        y := 0 + p.spacing + wrapI16 p.barH
        width :=
          if stack_count = 0 then p.screenW - wrapU16 (p.spacing * 2)
          else u16OfF32 (fsub (fmul (p.screenW : ℚ) (fsub 1 p.ratio))
            ((p.spacing * 2 : ℤ) : ℚ))
        height := p.screenH - wrapU16 (p.spacing * 2) - p.barH
        group := WindowGroup.Master
        tag := atag }
  | WindowGroup.Stack =>
      { window := w.window
        frame_window := w.frame_window
        x := i16OfF32 (fmul (p.screenW : ℚ) (fsub 1 p.ratio))
        y :=
          if i = 0 then
            wrapI16 ((i * (p.screenH.toNat / stack_count) + p.spacing.toNat : ℕ))
              + wrapI16 p.barH
          else wrapI16 ((i * (p.screenH.toNat / stack_count) : ℕ))
        width := u16OfF32 (fmul (p.screenW : ℚ) p.ratio) - wrapU16 p.spacing
        height :=
          if i = 0 then
            wrapU16 ((p.screenH.toNat / stack_count : ℕ)) - wrapU16 (p.spacing * 2)
              - p.barH
          else wrapU16 ((p.screenH.toNat / stack_count : ℕ)) - wrapU16 p.spacing
        group := WindowGroup.Stack
        tag := atag }
  | WindowGroup.None => w

/-- Embeds `ManagerState::tile_windows` restricted to its pure payload: the
transformation applied to the active tag's window list. -/
def tile_windows (p : TilingParams) (atag : ℕ) (ws : List WindowState) :
    List WindowState :=
  let stack_count := (ws.filter (fun w => decide (w.group = WindowGroup.Stack))).length
  ws.enum.map (fun iw => tileOne p atag stack_count iw.1 iw.2)

/-- Embeds `ManagerState::set_last_master_others_stack`: last element becomes
Master, all others Stack. -/
def set_last_master_others_stack (ws : List WindowState) : List WindowState :=
  ws.enum.map (fun iw =>
    if iw.1 = ws.length - 1 then { iw.2 with group := WindowGroup.Master }
    else { iw.2 with group := WindowGroup.Stack })

/-- The store portion of `ManagerState`: the per-tag window lists
(`HashMap<u16, Vec<WindowState>>`, embedded as a total function), the active
tag, and the tiling inputs. -/
structure ManagerState where
  windows : ℕ → List WindowState
  active_tag : ℕ
  tiling : TilingParams

/-- Embeds `ManagerState::replace_vec_in_map`. -/
def replace_vec_in_map (s : ManagerState) (v : List WindowState) : ManagerState :=
  { s with windows := Function.update s.windows s.active_tag v }

/-- Embeds `ManagerState::tile_windows` acting on the store. -/
def ManagerState.tile (s : ManagerState) : ManagerState :=
  replace_vec_in_map s (tile_windows s.tiling s.active_tag (s.windows s.active_tag))

/-- Embeds `ManagerState::redraw_tag`: maps every window of the active tag (a pure
X side effect) and then retiles. -/
def redraw_tag (s : ManagerState) : ManagerState := s.tile

/-- Embeds `ManagerState::change_active_tag` (state.rs lines 150–163): a no-op when
the tag is already active; otherwise switch `active_tag`, unmap the old tag
and redraw (retile) the new one. -/
def change_active_tag (s : ManagerState) (tag : ℕ) : ManagerState :=
  if s.active_tag = tag then s
  else redraw_tag { s with active_tag := tag }

/-- Embeds `ManagerState::find_window_by_id` (state.rs lines 173–183): searches
every tag, matching the client or the frame id.  The embedding searches the
tags in index order. -/
def find_window_by_id (s : ManagerState) (tags : List ℕ) (window : ℕ) :
    Option WindowState :=
  match tags with
  | [] => Option.none
  | t :: ts =>
      match (s.windows t).find? (fun w => w.window == window || w.frame_window == window) with
      | some f => some f
      | Option.none => find_window_by_id s ts window

/-- The master-column width `W as f32 * (1.0 - ratio)` exactly as the
program computes it in f32 (tile_windows, state.rs lines 335-340 and
357-358). -/
def mcol (p : TilingParams) : ℚ := fmul (p.screenW : ℚ) (fsub 1 p.ratio)

/-- The stack-column width `W as f32 * ratio` exactly as the program
computes it in f32 (tile_windows, state.rs lines 369-370). -/
def scol (p : TilingParams) : ℚ := fmul (p.screenW : ℚ) p.ratio

/-- Validity of the tiling inputs for a tag with `S` stack windows: gaps and
bar nonnegative, screen dimensions in the machine ranges actually reachable
(`H ≤ 32767` keeps the `usize as i16` casts of the stack rows exact), the
f32-computed master column at least `2G` wide and below the `i16` cap, the
f32-computed stack column at least `G` wide, the two floored columns jointly
no wider than the screen, and every stack slot tall enough for its gaps.
Every configuration the program reaches satisfies these: the ratio is
clamped to `[0.15f32, 0.85f32]` and the relative rounding error of the two
f32 products is below `2^-23`, so the floored columns stay within the
screen width. -/
def ValidTiling (p : TilingParams) (S : ℕ) : Prop :=
  0 ≤ p.spacing ∧ 0 ≤ p.barH ∧
  0 < p.screenW ∧ p.screenW ≤ 65535 ∧
  0 < p.screenH ∧ p.screenH ≤ 32767 ∧
  ((2 * p.spacing : ℤ) : ℚ) ≤ mcol p ∧
  mcol p < 32768 ∧
  ((p.spacing : ℤ) : ℚ) ≤ scol p ∧
  ⌊mcol p⌋ + ⌊scol p⌋ ≤ p.screenW ∧
  (if S = 0 then 2 * p.spacing + p.barH ≤ p.screenH
   else 2 * p.spacing + p.barH ≤ ((p.screenH.toNat / S : ℕ) : ℤ))

instance (p : TilingParams) (S : ℕ) : Decidable (ValidTiling p S) := by
  unfold ValidTiling; infer_instance

/-- Geometry the specification (§4.4) assigns to the master window, in the
amended reading where each f32 product is the one the program computes
(`mcol`; the exact-product reading is refuted by the C1 counterexample);
written to be compared with `tile_windows`.  `S` is the number of stack
windows. -/
def specMasterGeom (p : TilingParams) (atag : ℕ) (S : ℕ) (w : WindowState) :
    WindowState :=
  { window := w.window
    frame_window := w.frame_window
    x := p.spacing
    y := p.spacing + p.barH
    width :=
      if S = 0 then p.screenW - p.spacing * 2
      else ⌊mcol p⌋ - p.spacing * 2
    height := p.screenH - p.spacing * 2 - p.barH
    group := WindowGroup.Master
    tag := atag }

/-- Geometry the specification (§4.4) assigns to the `i`-th stack window
(0-based position in the full list), in the amended reading where each f32
product is the one the program computes (`mcol`, `scol`). -/
def specStackGeom (p : TilingParams) (atag : ℕ) (S : ℕ) (i : ℕ)
    (w : WindowState) : WindowState :=
  { window := w.window
    frame_window := w.frame_window
    x := ⌊mcol p⌋
    y := if i = 0 then p.spacing + p.barH
         else (i : ℤ) * ((p.screenH.toNat / S : ℕ) : ℤ)
    width := ⌊scol p⌋ - p.spacing
    height :=
      if i = 0 then ((p.screenH.toNat / S : ℕ) : ℤ) - p.spacing * 2 - p.barH
      else ((p.screenH.toNat / S : ℕ) : ℤ) - p.spacing
    group := WindowGroup.Stack
    tag := atag }

section ValidFacts

variable {p : TilingParams} {S : ℕ}

theorem valid_2G_le_floorM (hv : ValidTiling p S) :
    2 * p.spacing ≤ ⌊mcol p⌋ := by
  obtain ⟨_, _, _, _, _, _, hW1R, _, _, _, _⟩ := hv
  exact Int.le_floor.mpr hW1R

theorem valid_G_le_floorS (hv : ValidTiling p S) :
    p.spacing ≤ ⌊scol p⌋ := by
  obtain ⟨_, _, _, _, _, _, _, _, hWR, _, _⟩ := hv
  exact Int.le_floor.mpr hWR

theorem valid_floorM_lt (hv : ValidTiling p S) :
    ⌊mcol p⌋ < 32768 := by
  obtain ⟨_, _, _, _, _, _, _, hlt, _, _, _⟩ := hv
  exact Int.floor_lt.mpr hlt

theorem valid_floor_sum_le_W (hv : ValidTiling p S) :
    ⌊mcol p⌋ + ⌊scol p⌋ ≤ p.screenW := by
  obtain ⟨_, _, _, _, _, _, _, _, _, hsum, _⟩ := hv
  exact hsum

theorem valid_floorM_le_W (hv : ValidTiling p S) :
    ⌊mcol p⌋ ≤ p.screenW := by
  have h1 := valid_floor_sum_le_W hv
  have h2 := valid_G_le_floorS hv
  have hG := hv.1
  omega

theorem valid_mcol_nonneg (hv : ValidTiling p S) : 0 ≤ mcol p := by
  have hG := hv.1
  have h := hv.2.2.2.2.2.2.1
  have h0 : (0:ℚ) ≤ ((2 * p.spacing : ℤ) : ℚ) := by
    exact_mod_cast (by omega : (0:ℤ) ≤ 2 * p.spacing)
  linarith

theorem valid_mcol_lt (hv : ValidTiling p S) : mcol p < 32768 :=
  hv.2.2.2.2.2.2.2.1

theorem valid_scol_nonneg (hv : ValidTiling p S) : 0 ≤ scol p := by
  have hG := hv.1
  have h := hv.2.2.2.2.2.2.2.2.1
  have h0 : (0:ℚ) ≤ ((p.spacing : ℤ) : ℚ) := by exact_mod_cast hG
  linarith

theorem valid_scol_lt (hv : ValidTiling p S) : scol p < 65536 := by
  have h1 := valid_floor_sum_le_W hv
  have h2 := valid_2G_le_floorM hv
  have hG := hv.1
  have hWle := hv.2.2.2.1
  have hfl : ⌊scol p⌋ ≤ 65535 := by omega
  have hup := Int.lt_floor_add_one (scol p)
  have hc : ((⌊scol p⌋ : ℤ) : ℚ) ≤ 65535 := by exact_mod_cast hfl
  linarith

/-- The integer stack-slot height. -/
def hslot (p : TilingParams) (S : ℕ) : ℤ := ((p.screenH.toNat / S : ℕ) : ℤ)

theorem hslot_nonneg (p : TilingParams) (S : ℕ) : 0 ≤ hslot p S := Int.ofNat_nonneg _

theorem hslot_le_H (hv : ValidTiling p S) (_hS : S ≠ 0) : hslot p S ≤ p.screenH := by
  obtain ⟨_, _, _, _, hH, _, _, _, _, _, _⟩ := hv
  have h1 : p.screenH.toNat / S ≤ p.screenH.toNat := Nat.div_le_self _ _
  have h2 : ((p.screenH.toNat : ℕ) : ℤ) = p.screenH := Int.toNat_of_nonneg (le_of_lt hH)
  calc hslot p S ≤ ((p.screenH.toNat : ℕ) : ℤ) := by unfold hslot; exact_mod_cast h1
    _ = p.screenH := h2

theorem mul_hslot_le_H (hv : ValidTiling p S) {k : ℕ} (hk : k ≤ S) :
    (k : ℤ) * hslot p S ≤ p.screenH := by
  obtain ⟨_, _, _, _, hH, _, _, _, _, _, _⟩ := hv
  have h1 : k * (p.screenH.toNat / S) ≤ S * (p.screenH.toNat / S) :=
    Nat.mul_le_mul_right _ hk
  have h2 : S * (p.screenH.toNat / S) ≤ p.screenH.toNat := by
    rw [Nat.mul_comm]
    exact Nat.div_mul_le_self p.screenH.toNat S
  have h3 : ((p.screenH.toNat : ℕ) : ℤ) = p.screenH := Int.toNat_of_nonneg (le_of_lt hH)
  have : (k : ℤ) * hslot p S ≤ ((p.screenH.toNat : ℕ) : ℤ) := by
    unfold hslot; exact_mod_cast le_trans h1 h2
  omega

theorem valid_slot_bound (hv : ValidTiling p S) (hS : S ≠ 0) :
    2 * p.spacing + p.barH ≤ hslot p S := by
  obtain ⟨_, _, _, _, _, _, _, _, _, _, hbr⟩ := hv
  simpa [hS, hslot] using hbr

theorem valid_G_le_32767 (hv : ValidTiling p S) : p.spacing ≤ 32767 := by
  have hG := hv.1
  have hB := hv.2.1
  have hH := hv.2.2.2.2.2.1
  rcases Nat.eq_zero_or_pos S with h0 | hpos
  · have := hv.2.2.2.2.2.2.2.2.2.2
    rw [if_pos h0] at this
    omega
  · have hbr := valid_slot_bound hv (Nat.pos_iff_ne_zero.mp hpos)
    have := hslot_le_H hv (Nat.pos_iff_ne_zero.mp hpos)
    omega

theorem valid_B_le_32767 (hv : ValidTiling p S) : p.barH ≤ 32767 := by
  have hG := hv.1
  have hB := hv.2.1
  have hH := hv.2.2.2.2.2.1
  rcases Nat.eq_zero_or_pos S with h0 | hpos
  · have := hv.2.2.2.2.2.2.2.2.2.2
    rw [if_pos h0] at this
    omega
  · have hbr := valid_slot_bound hv (Nat.pos_iff_ne_zero.mp hpos)
    have := hslot_le_H hv (Nat.pos_iff_ne_zero.mp hpos)
    omega

end ValidFacts

section TileEval

variable {p : TilingParams} {S : ℕ} {atag i : ℕ} {w : WindowState}

theorem tileOne_stack_eq (hv : ValidTiling p S) (hi : i < S)
    (hw : w.group = WindowGroup.Stack) :
    tileOne p atag S i w = specStackGeom p atag S i w := by
  have hS : S ≠ 0 := by omega
  obtain ⟨hG, hB, hW, hWle, hH, hHle, hW1R, hW1Rlt, hWR, hsum, _⟩ := id hv
  have hG32 : p.spacing ≤ 32767 := valid_G_le_32767 hv
  have hB32 : p.barH ≤ 32767 := valid_B_le_32767 hv
  have hx : i16OfF32 (fmul (p.screenW : ℚ) (fsub 1 p.ratio)) = ⌊mcol p⌋ :=
    i16OfF32_eq_floor (valid_mcol_nonneg hv) (valid_mcol_lt hv)
  have hwidth : u16OfF32 (fmul (p.screenW : ℚ) p.ratio) = ⌊scol p⌋ :=
    u16OfF32_eq_floor (valid_scol_nonneg hv) (valid_scol_lt hv)
  have hwrapG : wrapU16 p.spacing = p.spacing := wrapU16_eq hG (by omega)
  have hwrap2G : wrapU16 (p.spacing * 2) = p.spacing * 2 := wrapU16_eq (by omega) (by omega)
  have hslotH : hslot p S ≤ p.screenH := hslot_le_H hv hS
  have hslot0 : 0 ≤ hslot p S := hslot_nonneg p S
  have hwrapslot : wrapU16 ((p.screenH.toNat / S : ℕ) : ℤ) = ((p.screenH.toNat / S : ℕ) : ℤ) := by
    have h1 : ((p.screenH.toNat / S : ℕ) : ℤ) = hslot p S := rfl
    rw [h1]
    exact wrapU16_eq hslot0 (by omega)
  have hy : (if i = 0 then
        wrapI16 ((i * (p.screenH.toNat / S) + p.spacing.toNat : ℕ)) + wrapI16 p.barH
      else wrapI16 ((i * (p.screenH.toNat / S) : ℕ)))
      = (if i = 0 then p.spacing + p.barH
         else (i : ℤ) * ((p.screenH.toNat / S : ℕ) : ℤ)) := by
    rcases Nat.eq_zero_or_pos i with h0 | hpos
    · subst h0
      have hw1 : wrapI16 ((0 * (p.screenH.toNat / S) + p.spacing.toNat : ℕ)) = p.spacing := by
        have h1 : ((0 * (p.screenH.toNat / S) + p.spacing.toNat : ℕ) : ℤ) = p.spacing := by
          push_cast; omega
        rw [h1]; exact wrapI16_eq (by omega) (by omega)
      have hw2 : wrapI16 p.barH = p.barH := wrapI16_eq (by omega) (by omega)
      rw [if_pos rfl, if_pos rfl, hw1, hw2]
    · have hne : i ≠ 0 := by omega
      have hw3 : wrapI16 ((i * (p.screenH.toNat / S) : ℕ))
          = (i : ℤ) * ((p.screenH.toNat / S : ℕ) : ℤ) := by
        have hmul : ((i * (p.screenH.toNat / S) : ℕ) : ℤ) = (i : ℤ) * hslot p S := by
          push_cast; rfl
        have hbound : (i : ℤ) * hslot p S ≤ p.screenH :=
          mul_hslot_le_H hv (le_of_lt hi)
        have hnn : 0 ≤ (i : ℤ) * hslot p S :=
          mul_nonneg (by exact_mod_cast Nat.zero_le i) hslot0
        rw [hmul, wrapI16_eq (by omega) (by omega)]; rfl
      rw [if_neg hne, if_neg hne, hw3]
  cases w with
  | mk window frame x y width height group tag =>
    simp only at hw
    subst hw
    simp only [tileOne, specStackGeom, hx, hwidth, hwrapG, hwrap2G, hwrapslot, hy]

theorem tileOne_master_eq (hv : ValidTiling p S)
    (hw : w.group = WindowGroup.Master) :
    tileOne p atag S i w = specMasterGeom p atag S w := by
  obtain ⟨hG, hB, hW, hWle, hH, hHle, hW1R, hW1Rlt, hWR, hsum, _⟩ := id hv
  have hG32 : p.spacing ≤ 32767 := valid_G_le_32767 hv
  have hB32 : p.barH ≤ 32767 := valid_B_le_32767 hv
  have hwrap2G : wrapU16 (p.spacing * 2) = p.spacing * 2 := wrapU16_eq (by omega) (by omega)
  have hwrapB : wrapI16 p.barH = p.barH := wrapI16_eq (by omega) (by omega)
  have hcomm : (p.spacing * 2 : ℤ) = 2 * p.spacing := by ring
  have hexact : fsub (fmul (p.screenW : ℚ) (fsub 1 p.ratio)) ((p.spacing * 2 : ℤ) : ℚ)
      = mcol p - ((p.spacing * 2 : ℤ) : ℚ) :=
    RustWm.fsub_round_int_exact ((p.screenW : ℚ) * (fsub 1 p.ratio)) (p.spacing * 2)
      (by omega) (by rw [hcomm]; exact hW1R) hW1Rlt
  have hwidth : u16OfF32 (fsub (fmul (p.screenW : ℚ) (fsub 1 p.ratio))
        ((p.spacing * 2 : ℤ) : ℚ))
      = ⌊mcol p⌋ - p.spacing * 2 := by
    rw [hexact]
    have hge : (0 : ℚ) ≤ mcol p - ((p.spacing * 2 : ℤ) : ℚ) := by
      have h2 : ((p.spacing * 2 : ℤ) : ℚ) = ((2 * p.spacing : ℤ) : ℚ) := by push_cast; ring
      rw [h2]; linarith [hW1R]
    have hlt : mcol p - ((p.spacing * 2 : ℤ) : ℚ) < 65536 := by
      have h2 : (0 : ℚ) ≤ ((p.spacing * 2 : ℤ) : ℚ) := by
        exact_mod_cast (by omega : (0:ℤ) ≤ p.spacing * 2)
      linarith [hW1Rlt]
    rw [u16OfF32_eq_floor hge hlt, Int.floor_sub_int]
  cases w with
  | mk window frame x y width height group tag =>
    simp only at hw
    subst hw
    simp only [tileOne, specMasterGeom, hwrap2G, hwrapB, hwidth, zero_add]

/-- The main tiler characterization: on a canonical active-tag list (stack
windows followed by a single master, the shape produced by
`set_last_master_others_stack`), `tile_windows` computes exactly the
geometry of specification §4.4. -/
theorem tile_canonical (p : TilingParams) (atag : ℕ)
    (sws : List WindowState) (m : WindowState)
    (hm : m.group = WindowGroup.Master)
    (hst : ∀ w ∈ sws, w.group = WindowGroup.Stack)
    (hv : ValidTiling p sws.length) :
    tile_windows p atag (sws ++ [m]) =
      sws.enum.map (fun iw => specStackGeom p atag sws.length iw.1 iw.2)
        ++ [specMasterGeom p atag sws.length m] := by
  have hcount : ((sws ++ [m]).filter
      (fun w => decide (w.group = WindowGroup.Stack))).length = sws.length := by
    rw [List.filter_append]
    have h1 : sws.filter (fun w => decide (w.group = WindowGroup.Stack)) = sws :=
      List.filter_eq_self.mpr (fun a ha => by simp [hst a ha])
    have h2 : [m].filter (fun w => decide (w.group = WindowGroup.Stack)) = [] := by
      simp [List.filter, hm]
    rw [h1, h2, List.length_append]
    simp
  unfold tile_windows
  rw [hcount, List.enum_append, List.map_append]
  congr 1
  · refine List.map_congr_left ?_
    rintro ⟨i, w⟩ hmem
    have hw : sws[i]? = some w := List.mk_mem_enum_iff_getElem?.mp hmem
    obtain ⟨hlt, rfl⟩ := List.getElem?_eq_some.mp hw
    exact tileOne_stack_eq hv hlt (hst _ (List.getElem_mem hlt))
  · show List.map _ (List.enumFrom sws.length [m]) = _
    simp only [List.enumFrom, List.map]
    rw [tileOne_master_eq hv hm]

end TileEval

end StateRs

/-! ### Rectangle geometry for the coverage property -/

namespace StateRs

/-- The half-open screen rectangle `[x, x+width) × [y, y+height)` of a
window state contains a point. -/
def inRect (w : WindowState) (px py : ℤ) : Prop :=
  w.x ≤ px ∧ px < w.x + w.width ∧ w.y ≤ py ∧ py < w.y + w.height

/-- Two window rectangles share no point. -/
def RectDisjoint (a b : WindowState) : Prop :=
  ∀ px py, ¬ (inRect a px py ∧ inRect b px py)

section CoverageLemmas

variable {p : TilingParams} {S atag i j : ℕ} {w w1 w2 m : WindowState}

theorem specStack_bounds (hv : ValidTiling p S) (hi : i < S) {px py : ℤ}
    (h : inRect (specStackGeom p atag S i w) px py) :
    p.spacing ≤ px ∧ px ≤ p.screenW - p.spacing ∧
      p.spacing + p.barH ≤ py ∧ py ≤ p.screenH - p.spacing := by
  have hS : S ≠ 0 := by omega
  obtain ⟨hx1, hx2, hy1, hy2⟩ := h
  have hG := hv.1
  have hB := hv.2.1
  have h2G := valid_2G_le_floorM hv
  have hsum := valid_floor_sum_le_W hv
  have hslotH : ((p.screenH.toNat / S : ℕ) : ℤ) ≤ p.screenH := hslot_le_H hv hS
  have hslot0 : (0 : ℤ) ≤ ((p.screenH.toNat / S : ℕ) : ℤ) := hslot_nonneg p S
  have hbr : 2 * p.spacing + p.barH ≤ ((p.screenH.toNat / S : ℕ) : ℤ) :=
    valid_slot_bound hv hS
  simp only [specStackGeom] at hx1 hx2 hy1 hy2
  refine ⟨by linarith, by linarith, ?_, ?_⟩
  · rcases eq_or_ne i 0 with h0 | hne
    · rw [if_pos h0] at hy1; linarith
    · rw [if_neg hne] at hy1
      have hi1 : (1 : ℤ) ≤ (i : ℤ) := by exact_mod_cast Nat.one_le_iff_ne_zero.mpr hne
      have hmono : ((p.screenH.toNat / S : ℕ) : ℤ)
          ≤ (i : ℤ) * ((p.screenH.toNat / S : ℕ) : ℤ) :=
        le_mul_of_one_le_left hslot0 hi1
      linarith
  · rcases eq_or_ne i 0 with h0 | hne
    · rw [if_pos h0, if_pos h0] at hy2
      linarith
    · rw [if_neg hne, if_neg hne] at hy2
      have hk : (i + 1 : ℕ) ≤ S := by omega
      have h1 : ((i : ℤ) + 1) * ((p.screenH.toNat / S : ℕ) : ℤ) ≤ p.screenH := by
        have h2 : ((i : ℤ) + 1) = ((i + 1 : ℕ) : ℤ) := by push_cast; ring
        rw [h2]
        exact mul_hslot_le_H hv hk
      nlinarith

theorem specMaster_bounds (hv : ValidTiling p S) {px py : ℤ}
    (h : inRect (specMasterGeom p atag S m) px py) :
    p.spacing ≤ px ∧ px ≤ p.screenW - p.spacing ∧
      p.spacing + p.barH ≤ py ∧ py ≤ p.screenH - p.spacing := by
  obtain ⟨hx1, hx2, hy1, hy2⟩ := h
  have hG := hv.1
  have hB := hv.2.1
  have h2G := valid_2G_le_floorM hv
  have hFW := valid_floorM_le_W hv
  simp only [specMasterGeom] at hx1 hx2 hy1 hy2
  have hH2 : 2 * p.spacing + p.barH ≤ p.screenH := by
    rcases Nat.eq_zero_or_pos S with h0 | hpos
    · have := hv.2.2.2.2.2.2.2.2.2.2; rw [if_pos h0] at this; exact this
    · have hS : S ≠ 0 := by omega
      have := valid_slot_bound hv hS
      have := hslot_le_H hv hS
      omega
  refine ⟨by omega, ?_, by omega, by omega⟩
  rcases Nat.eq_zero_or_pos S with h0 | hpos
  · rw [if_pos h0] at hx2; omega
  · have hS : S ≠ 0 := by omega
    rw [if_neg hS] at hx2; omega

theorem specStack_disjoint (hv : ValidTiling p S) (hij : i < j) (_hj : j < S) :
    RectDisjoint (specStackGeom p atag S i w1) (specStackGeom p atag S j w2) := by
  intro px py hcontra
  obtain ⟨⟨_, _, _, hy2⟩, ⟨_, _, hy1', _⟩⟩ := hcontra
  have hG := hv.1
  have hB := hv.2.1
  have hslot0 : (0 : ℤ) ≤ ((p.screenH.toNat / S : ℕ) : ℤ) := hslot_nonneg p S
  simp only [specStackGeom] at hy2 hy1'
  have hjne : j ≠ 0 := by omega
  rw [if_neg hjne] at hy1'
  have hstep : ((i : ℤ) + 1) * ((p.screenH.toNat / S : ℕ) : ℤ)
      ≤ (j : ℤ) * ((p.screenH.toNat / S : ℕ) : ℤ) := by
    have hij' : ((i : ℤ) + 1) ≤ (j : ℤ) := by exact_mod_cast hij
    exact mul_le_mul_of_nonneg_right hij' hslot0
  rcases eq_or_ne i 0 with h0 | hne
  · rw [if_pos h0] at hy2
    rw [if_pos h0] at hy2
    simp only [h0] at hstep
    nlinarith
  · rw [if_neg hne] at hy2
    rw [if_neg hne] at hy2
    nlinarith

theorem specCross_disjoint (hv : ValidTiling p S) (hS : S ≠ 0) :
    RectDisjoint (specStackGeom p atag S i w1) (specMasterGeom p atag S m) := by
  intro px py hcontra
  obtain ⟨⟨hx1, _, _, _⟩, ⟨_, hx2', _, _⟩⟩ := hcontra
  have hG := hv.1
  simp only [specStackGeom] at hx1
  simp only [specMasterGeom, if_neg hS] at hx2'
  omega

end CoverageLemmas

end StateRs

/-! ### Claims C1 and C2 -/

/-- Demo tiling parameters from the spec's end-to-end scenarios:
`W=1000, H=600, B=20, G=10, R=0.5`.  Every f32 quantity these produce is
exactly representable, so the f32 products equal the exact ones. -/
abbrev pDemo : StateRs.TilingParams := { screenW := 1000, screenH := 600, barH := 20, spacing := 10, ratio := 1/2 }

abbrev wDemoS0 : StateRs.WindowState :=
  ⟨101, 201, 0, 0, 50, 50, StateRs.WindowGroup.Stack, 1⟩

abbrev wDemoS1 : StateRs.WindowState :=
  ⟨102, 202, 0, 0, 50, 50, StateRs.WindowGroup.Stack, 1⟩

abbrev wDemoM : StateRs.WindowState :=
  ⟨103, 203, 0, 0, 50, 50, StateRs.WindowGroup.Master, 1⟩

/-- At the demo parameters the f32 master column is exactly 500. -/
theorem mcol_pDemo : StateRs.mcol pDemo = 500 := by
  have h1 : RustWm.fsub 1 pDemo.ratio = 1/2 := by
    show RustWm.f32round (1 - pDemo.ratio) = 1/2
    have h : (1:ℚ) - pDemo.ratio = 1/2 := by norm_num [pDemo]
    rw [h]
    exact RustWm.f32round_eq_self 1 (-1) (by norm_num) (by norm_num) (by norm_num)
  show RustWm.fmul (pDemo.screenW : ℚ) (RustWm.fsub 1 pDemo.ratio) = 500
  rw [h1]
  show RustWm.f32round ((pDemo.screenW : ℚ) * (1/2)) = 500
  have h2 : ((pDemo.screenW : ℤ) : ℚ) * (1/2) = 500 := by norm_num [pDemo]
  rw [h2]
  exact RustWm.f32round_eq_self 500 0 (by norm_num) (by norm_num) (by norm_num)

/-- At the demo parameters the f32 stack column is exactly 500. -/
theorem scol_pDemo : StateRs.scol pDemo = 500 := by
  show RustWm.fmul (pDemo.screenW : ℚ) pDemo.ratio = 500
  show RustWm.f32round ((pDemo.screenW : ℚ) * pDemo.ratio) = 500
  have h2 : ((pDemo.screenW : ℤ) : ℚ) * pDemo.ratio = 500 := by norm_num [pDemo]
  rw [h2]
  exact RustWm.f32round_eq_self 500 0 (by norm_num) (by norm_num) (by norm_num)

/-- The demo parameters are valid tiling inputs for two stack windows. -/
theorem validTiling_pDemo : StateRs.ValidTiling pDemo 2 := by
  have hf : ⌊(500:ℚ)⌋ = 500 := by rw [Int.floor_eq_iff]; norm_num
  unfold StateRs.ValidTiling
  rw [mcol_pDemo, scol_pDemo, hf]
  norm_num [pDemo]

/-- Tiling parameters refuting the exact-product reading of the tiler
formulas: `W = 43691` and the f32 ratio `R = 16384003/2^24 ≈ 0.9765627`
make the exact product `W·(1−R) = 1024 − 2^-24` (floor 1023), while the
f32 product rounds up to exactly 1024. -/
abbrev pCE : StateRs.TilingParams :=
  { screenW := 43691, screenH := 600, barH := 20, spacing := 10,
    ratio := 16384003/16777216 }

abbrev wCES : StateRs.WindowState :=
  ⟨111, 211, 0, 0, 50, 50, StateRs.WindowGroup.Stack, 1⟩

abbrev wCEM : StateRs.WindowState :=
  ⟨112, 212, 0, 0, 50, 50, StateRs.WindowGroup.Master, 1⟩

/-- With `R ∈ [1/2, 1]` the f32 subtraction `1.0 - R` is exact
(Sterbenz): here it yields `393213/2^24`. -/
theorem fsub_pCE : RustWm.fsub 1 pCE.ratio = 393213/16777216 := by
  show RustWm.f32round (1 - pCE.ratio) = 393213/16777216
  have h : (1:ℚ) - pCE.ratio = 393213/16777216 := by norm_num [pCE]
  rw [h]
  exact RustWm.f32round_eq_self 393213 (-24) (by norm_num) (by norm_num) (by norm_num)

/-- The f32 master column at the counterexample parameters: the exact
product `1024 - 2^-24` rounds up to 1024. -/
theorem mcol_pCE : StateRs.mcol pCE = 1024 := by
  show RustWm.fmul (pCE.screenW : ℚ) (RustWm.fsub 1 pCE.ratio) = 1024
  rw [fsub_pCE]
  show RustWm.f32round ((pCE.screenW : ℚ) * (393213/16777216)) = 1024
  have h : ((pCE.screenW : ℤ) : ℚ) * (393213/16777216) = 17179869183/16777216 := by
    norm_num [pCE]
  rw [h]
  have h2 : RustWm.f32round (17179869183/16777216 : ℚ)
      = ((16777215 : ℚ) + 1) * 2 ^ ((9:ℤ) - 23) :=
    RustWm.f32round_eq_up 9 16777215 (by norm_num) (by norm_num) (by norm_num)
      (by norm_num) (by norm_num)
  rw [h2]
  norm_num

/-- The f32 stack column at the counterexample parameters: the exact
product `42667 + 2^-24` rounds down to 42667. -/
theorem scol_pCE : StateRs.scol pCE = 42667 := by
  show RustWm.fmul (pCE.screenW : ℚ) pCE.ratio = 42667
  show RustWm.f32round ((pCE.screenW : ℚ) * pCE.ratio) = 42667
  have h : ((pCE.screenW : ℤ) : ℚ) * pCE.ratio = 715833475073/16777216 := by
    norm_num [pCE]
  rw [h]
  have h2 : RustWm.f32round (715833475073/16777216 : ℚ)
      = (10922752 : ℚ) * 2 ^ ((15:ℤ) - 23) :=
    RustWm.f32round_eq_down 15 10922752 (by norm_num) (by norm_num) (by norm_num)
      (by norm_num) (by norm_num)
  rw [h2]
  norm_num

/-- The counterexample parameters are valid tiling inputs for one stack
window. -/
theorem validTiling_pCE : StateRs.ValidTiling pCE 1 := by
  have hf1 : ⌊(1024:ℚ)⌋ = 1024 := by rw [Int.floor_eq_iff]; norm_num
  have hf2 : ⌊(42667:ℚ)⌋ = 42667 := by rw [Int.floor_eq_iff]; norm_num
  unfold StateRs.ValidTiling
  rw [mcol_pCE, scol_pCE, hf1, hf2]
  norm_num [pCE]

/-- C1 counterexample: at `W = 43691` and the f32 ratio
`R = 16384003/2^24`, valid tiling inputs, the tiler places the stack window
at `x = 1024` and gives the master width `1024 − 2G = 1004`, while the
claimed exact-product formulas give `⌊W·(1−R)⌋ = 1023` (so stack
`x = 1023`, master width 1003): the program computes `⌊W·(1−R)⌋` in f32,
where the product `1024 − 2^-24` rounds up to 1024. -/
theorem c1_counterexample_f32_rounding :
    StateRs.ValidTiling pCE 1 ∧
    (StateRs.tile_windows pCE 0 ([wCES] ++ [wCEM])).map (fun w => w.x)
      = [1024, 10] ∧
    (StateRs.tile_windows pCE 0 ([wCES] ++ [wCEM])).map (fun w => w.width)
      = [42657, 1004] ∧
    ⌊(43691 : ℚ) * (1 - 16384003/16777216)⌋ = 1023 := by
  have hf1 : ⌊(1024:ℚ)⌋ = 1024 := by rw [Int.floor_eq_iff]; norm_num
  have hf2 : ⌊(42667:ℚ)⌋ = 42667 := by rw [Int.floor_eq_iff]; norm_num
  have hcanon := StateRs.tile_canonical pCE 0 [wCES] wCEM rfl
    (by intro w hw; rw [List.mem_singleton] at hw; subst hw; rfl) validTiling_pCE
  refine ⟨validTiling_pCE, ?_, ?_, ?_⟩
  · rw [hcanon]
    simp [StateRs.specStackGeom, StateRs.specMasterGeom, List.enum, mcol_pCE, hf1]
  · rw [hcanon]
    simp [StateRs.specStackGeom, StateRs.specMasterGeom, List.enum,
      mcol_pCE, scol_pCE, hf1, hf2]
  · have h : (43691 : ℚ) * (1 - 16384003/16777216) = 17179869183/16777216 := by
      norm_num
    rw [h, Int.floor_eq_iff]; norm_num

/-- C1 (amended): for an active-tag list that ends in one Master window
preceded by `S ≥ 1` Stack windows, `tile_windows` assigns the Master
`x = G, y = G + B, w = ⌊fl(W ⊗ fl(1 ⊖ R))⌋ − 2G, h = H − 2G − B` and the
Stack window at 0-based position `i` of the full list
`x = ⌊fl(W ⊗ fl(1 ⊖ R))⌋, w = ⌊fl(W ⊗ R)⌋ − G`, with
`y = G + B, h = ⌊H/S⌋ − 2G − B` for `i = 0` and
`y = i·⌊H/S⌋, h = ⌊H/S⌋ − G` otherwise — each f32 product taken as the
program computes it (`⊗`/`⊖` are binary32 operations; the exact-product
formulas fail at the C1 counterexample); and a tag with exactly one
non-Floating window gets `x = G, y = G + B, w = W − 2G, h = H − 2G − B`
(`specStackGeom`/`specMasterGeom` transcribe these formulas over
`mcol`/`scol`). -/
theorem c1_tiler_geometry (p : StateRs.TilingParams) (atag : ℕ)
    (sws : List StateRs.WindowState) (m : StateRs.WindowState)
    (hm : m.group = StateRs.WindowGroup.Master)
    (hst : ∀ w ∈ sws, w.group = StateRs.WindowGroup.Stack)
    (_hS : 1 ≤ sws.length)
    (hv : StateRs.ValidTiling p sws.length) :
    StateRs.tile_windows p atag (sws ++ [m]) =
      sws.enum.map (fun iw => StateRs.specStackGeom p atag sws.length iw.1 iw.2)
        ++ [StateRs.specMasterGeom p atag sws.length m]
    ∧ ∀ (w : StateRs.WindowState), w.group = StateRs.WindowGroup.Master →
        ∀ (q : StateRs.TilingParams) (aq : ℕ), StateRs.ValidTiling q 0 →
          StateRs.tile_windows q aq [w] = [StateRs.specMasterGeom q aq 0 w] := by
  constructor
  · exact StateRs.tile_canonical p atag sws m hm hst hv
  · intro w hw q aq hvq
    have h := StateRs.tile_canonical q aq [] w hw (by intro x hx; cases hx) hvq
    simpa using h

/-- Witness for C1 at the spec's scenario-3 inputs. -/
theorem c1_tiler_geometry_witness :
    (wDemoM.group = StateRs.WindowGroup.Master ∧
     (∀ w ∈ [wDemoS0, wDemoS1], w.group = StateRs.WindowGroup.Stack) ∧
     1 ≤ [wDemoS0, wDemoS1].length ∧
     StateRs.ValidTiling pDemo [wDemoS0, wDemoS1].length) ∧
    (StateRs.tile_windows pDemo 0 ([wDemoS0, wDemoS1] ++ [wDemoM]) =
      [wDemoS0, wDemoS1].enum.map
        (fun iw => StateRs.specStackGeom pDemo 0 2 iw.1 iw.2)
        ++ [StateRs.specMasterGeom pDemo 0 2 wDemoM]
     ∧ ∀ (w : StateRs.WindowState), w.group = StateRs.WindowGroup.Master →
        ∀ (q : StateRs.TilingParams) (aq : ℕ), StateRs.ValidTiling q 0 →
          StateRs.tile_windows q aq [w] = [StateRs.specMasterGeom q aq 0 w]) :=
  ⟨⟨rfl, by decide, by decide, validTiling_pDemo⟩,
    c1_tiler_geometry pDemo 0 [wDemoS0, wDemoS1] wDemoM rfl (by decide) (by decide)
      validTiling_pDemo⟩

/-- C2: for a tag with `n ≥ 1` tiled windows (here an arbitrary canonical
list of `S ≥ 0` Stack windows followed by the Master) and valid tiling
parameters, the rectangles computed by `tile_windows` are pairwise
non-overlapping and contained in `[G, W−G] × [G+B, H−G]`. -/
theorem c2_tiler_coverage (p : StateRs.TilingParams) (atag : ℕ)
    (sws : List StateRs.WindowState) (m : StateRs.WindowState)
    (hm : m.group = StateRs.WindowGroup.Master)
    (hst : ∀ w ∈ sws, w.group = StateRs.WindowGroup.Stack)
    (hv : StateRs.ValidTiling p sws.length) :
    List.Pairwise StateRs.RectDisjoint (StateRs.tile_windows p atag (sws ++ [m]))
    ∧ ∀ w ∈ StateRs.tile_windows p atag (sws ++ [m]), ∀ px py : ℤ,
        StateRs.inRect w px py →
          p.spacing ≤ px ∧ px ≤ p.screenW - p.spacing ∧
          p.spacing + p.barH ≤ py ∧ py ≤ p.screenH - p.spacing := by
  rw [StateRs.tile_canonical p atag sws m hm hst hv]
  constructor
  · rw [List.pairwise_append]
    refine ⟨?_, List.pairwise_singleton _ _, ?_⟩
    · rw [List.pairwise_iff_getElem]
      intro i j hi hj hij
      have hi2 : i < sws.length := by simpa [List.enum_length] using hi
      have hj2 : j < sws.length := by simpa [List.enum_length] using hj
      have hgi : (sws.enum.map
          (fun iw => StateRs.specStackGeom p atag sws.length iw.1 iw.2))[i]
          = StateRs.specStackGeom p atag sws.length i (sws.get ⟨i, hi2⟩) := by
        rw [List.getElem_map, List.getElem_enum]
        rfl
      have hgj : (sws.enum.map
          (fun iw => StateRs.specStackGeom p atag sws.length iw.1 iw.2))[j]
          = StateRs.specStackGeom p atag sws.length j (sws.get ⟨j, hj2⟩) := by
        rw [List.getElem_map, List.getElem_enum]
        rfl
      rw [hgi, hgj]
      exact StateRs.specStack_disjoint hv hij hj2
    · intro a ha b hb
      obtain ⟨⟨i, sw⟩, hmem, rfl⟩ := List.mem_map.mp ha
      rw [List.mem_singleton] at hb
      subst hb
      have hne : sws.length ≠ 0 := by
        intro h0
        rw [List.eq_nil_of_length_eq_zero h0] at hmem
        cases hmem
      exact StateRs.specCross_disjoint hv hne
  · intro w hw px py hpt
    rcases List.mem_append.mp hw with hmem | hmem
    · obtain ⟨⟨i, sw⟩, hmem2, rfl⟩ := List.mem_map.mp hmem
      have hw2 : sws[i]? = some sw := List.mk_mem_enum_iff_getElem?.mp hmem2
      obtain ⟨hlt, _⟩ := List.getElem?_eq_some.mp hw2
      exact StateRs.specStack_bounds hv hlt hpt
    · rw [List.mem_singleton] at hmem
      subst hmem
      exact StateRs.specMaster_bounds hv hpt

/-- Witness for C2 at the spec's scenario-3 inputs. -/
theorem c2_tiler_coverage_witness :
    (wDemoM.group = StateRs.WindowGroup.Master ∧
     (∀ w ∈ [wDemoS0, wDemoS1], w.group = StateRs.WindowGroup.Stack) ∧
     StateRs.ValidTiling pDemo [wDemoS0, wDemoS1].length) ∧
    (List.Pairwise StateRs.RectDisjoint
        (StateRs.tile_windows pDemo 0 ([wDemoS0, wDemoS1] ++ [wDemoM]))
     ∧ ∀ w ∈ StateRs.tile_windows pDemo 0 ([wDemoS0, wDemoS1] ++ [wDemoM]),
        ∀ px py : ℤ, StateRs.inRect w px py →
          pDemo.spacing ≤ px ∧ px ≤ pDemo.screenW - pDemo.spacing ∧
          pDemo.spacing + pDemo.barH ≤ py ∧ py ≤ pDemo.screenH - pDemo.spacing) :=
  ⟨⟨rfl, by decide, validTiling_pDemo⟩,
    c2_tiler_coverage pDemo 0 [wDemoS0, wDemoS1] wDemoM rfl (by decide)
      validTiling_pDemo⟩

/-! ### Claim C7 — tag switch round trip -/

namespace StateRs

theorem tileOne_window (p : TilingParams) (atag c i : ℕ) (w : WindowState) :
    (tileOne p atag c i w).window = w.window := by
  rcases w with ⟨win, fr, x, y, wd, ht, g, tg⟩
  cases g <;> rfl

/-- Retiling never changes which windows are in the list, nor their order. -/
theorem tile_windows_ids (p : TilingParams) (atag : ℕ) (ws : List WindowState) :
    (tile_windows p atag ws).map (fun w => w.window) = ws.map (fun w => w.window) := by
  unfold tile_windows
  exact RustWm.enum_map_preserves ws _ _ (fun i w => tileOne_window p atag _ i w)

/-- A single `change_active_tag` preserves every tag's window-id list. -/
theorem change_active_tag_ids (s : ManagerState) (a t : ℕ) :
    ((change_active_tag s a).windows t).map (fun w => w.window)
      = (s.windows t).map (fun w => w.window) := by
  unfold change_active_tag
  rcases eq_or_ne s.active_tag a with h | h
  · rw [if_pos h]
  · rw [if_neg h]
    show ((redraw_tag { s with active_tag := a }).windows t).map _ = _
    unfold redraw_tag ManagerState.tile replace_vec_in_map
    simp only [Function.update_apply]
    rcases eq_or_ne t a with ht | ht
    · rw [if_pos ht, tile_windows_ids]
      subst ht
      rfl
    · rw [if_neg ht]

end StateRs

/-- C7: `change_active_tag(a); change_active_tag(b); change_active_tag(a)`
leaves every tag's window list (membership and order of window ids)
unchanged, and `change_active_tag(t)` with `t` equal to the current active
tag returns the state fully unchanged. -/
theorem c7_tag_switch_round_trip (s : StateRs.ManagerState) (a b : ℕ) :
    (∀ t, ((StateRs.change_active_tag (StateRs.change_active_tag
          (StateRs.change_active_tag s a) b) a).windows t).map (fun w => w.window)
        = (s.windows t).map (fun w => w.window))
    ∧ StateRs.change_active_tag s s.active_tag = s := by
  constructor
  · intro t
    rw [StateRs.change_active_tag_ids, StateRs.change_active_tag_ids,
      StateRs.change_active_tag_ids]
  · unfold StateRs.change_active_tag
    rw [if_pos rfl]

/-! ## ConfigureRequest handling (`src/actions.rs`, `src/events.rs`,
`src/main.rs`)

The two revisions in the source disagree: the `events.rs`/`actions.rs`
router builds the aux with x11rb's `from_configure_request` (which copies
sibling and stack_mode when requested) and forwards it only for known
windows, while the old `main.rs` path forwards every request but chains
`.sibling(None).stack_mode(None)`. -/

namespace Xproto

/-- The bits of a `ConfigureRequestEvent.value_mask` relevant to
`ConfigureWindowAux`. -/
structure ValueMask where
  x : Bool
  y : Bool
  width : Bool
  height : Bool
  border_width : Bool
  sibling : Bool
  stack_mode : Bool
  deriving DecidableEq, Repr

/-- Embeds `x11rb::protocol::xproto::ConfigureRequestEvent` (the fields the
handlers read). -/
structure ConfigureRequestEvent where
  window : ℕ
  x : ℤ
  y : ℤ
  width : ℕ
  height : ℕ
  border_width : ℕ
  sibling : ℕ
  stack_mode : ℕ
  value_mask : ValueMask
  deriving DecidableEq, Repr

/-- Embeds `x11rb::protocol::xproto::ConfigureWindowAux`: optional fields of a
ConfigureWindow request. -/
structure ConfigureWindowAux where
  x : Option ℤ
  y : Option ℤ
  width : Option ℕ
  height : Option ℕ
  border_width : Option ℕ
  sibling : Option ℕ
  stack_mode : Option ℕ
  deriving DecidableEq, Repr

/-- x11rb `ConfigureWindowAux::from_configure_request`: copies every field
whose bit is set in the request's value_mask — including SIBLING and
STACK_MODE. -/
def from_configure_request (e : ConfigureRequestEvent) : ConfigureWindowAux :=
  { x := if e.value_mask.x then some e.x else Option.none
    y := if e.value_mask.y then some e.y else Option.none
    width := if e.value_mask.width then some e.width else Option.none
    height := if e.value_mask.height then some e.height else Option.none
    border_width := if e.value_mask.border_width then some e.border_width else Option.none
    sibling := if e.value_mask.sibling then some e.sibling else Option.none
    stack_mode := if e.value_mask.stack_mode then some e.stack_mode else Option.none }

end Xproto

namespace ActionsRs

/-- Embeds `ConnectionHandler::handle_config` (actions.rs lines 186–198): the
configure_window request it issues — window and aux, where
`aux = ConfigureWindowAux::from_configure_request(&event)` with no fields
stripped. -/
def handle_config (e : Xproto.ConfigureRequestEvent) :
    ℕ × Xproto.ConfigureWindowAux :=
  (e.window, Xproto.from_configure_request e)

end ActionsRs

namespace MainRs

/-- Embeds `config_event_window` (main.rs lines 402–412): the configure_window
request it issues — the aux from the request with
`.sibling(None).stack_mode(None)` chained on. -/
def config_event_window (e : Xproto.ConfigureRequestEvent) :
    ℕ × Xproto.ConfigureWindowAux :=
  let aux := Xproto.from_configure_request e
  let aux := { aux with sibling := Option.none }
  let aux := { aux with stack_mode := Option.none }
  (e.window, aux)

/-- Embeds `WindowManagerState::handle_configure_request` (main.rs lines 357–362):
calls `config_event_window` for every ConfigureRequest, with no check
whether the window is managed. -/
def handle_configure_request (e : Xproto.ConfigureRequestEvent) :
    ℕ × Xproto.ConfigureWindowAux :=
  config_event_window e

end MainRs

/-! ## `src/events.rs` — the `EventHandler` revision

The router in `events.rs` drives a `StateHandler` store whose own module is
missing from `src/` (events.rs and actions.rs only import it), so the store
operations below are modelled from the specification (§3, §4.3); each such
definition's doc comment starts with `Modelled from the spec:`.  The
handlers themselves are translated from `events.rs`.  Data that the real
handlers read from the X server (new frame ids, initial geometry, the
server's input focus) appear as extra parameters of the corresponding
handler. -/

namespace RustWm

/-- Rust `f32::clamp(lo, hi)`: the comparisons of `clamp` are exact, so no
rounding occurs here. -/
def clampQ (x lo hi : ℚ) : ℚ := if x < lo then lo else if x > hi then hi else x

/-- The f32 value denoted by the Rust literal `0.15`
(`0.15f32 = 5033165/2^25 ≈ 0.150000006`). -/
def lit015 : ℚ := f32round (15/100)

/-- The f32 value denoted by the Rust literal `0.85`
(`0.85f32 = 7130317/2^23 ≈ 0.850000024`). -/
def lit085 : ℚ := f32round (85/100)

/-- events.rs line 117: `self.man.tiling.ratio = (self.man.tiling.ratio +
change).clamp(0.15, 0.85)` — an f32 addition clamped between the f32
values of the two literals. -/
def change_ratio (r delta : ℚ) : ℚ := clampQ (fadd r delta) lit015 lit085

theorem lit015_val : lit015 = 5033165/33554432 := by
  unfold lit015
  have h : f32round (15/100 : ℚ) = ((10066329 : ℚ) + 1) * 2 ^ ((-3:ℤ) - 23) :=
    f32round_eq_up (-3) 10066329 (by norm_num) (by norm_num) (by norm_num)
      (by norm_num) (by norm_num)
  rw [h]
  norm_num

theorem lit085_val : lit085 = 7130317/8388608 := by
  unfold lit085
  have h : f32round (85/100 : ℚ) = ((14260633 : ℚ) + 1) * 2 ^ ((-1:ℤ) - 23) :=
    f32round_eq_up (-1) 14260633 (by norm_num) (by norm_num) (by norm_num)
      (by norm_num) (by norm_num)
  rw [h]
  norm_num

theorem lit015_le_lit085 : lit015 ≤ lit085 := by
  rw [lit015_val, lit085_val]
  norm_num

/-- Swap the elements at positions `i` and `j` (total; identity when either
index is out of range). -/
def swapIdx {α : Type} (l : List α) (i j : ℕ) : List α :=
  match l[i]?, l[j]? with
  | some a, some b => (l.set i b).set j a
  | _, _ => l

end RustWm

namespace EventsRs

inductive WindowGroup
  | Master
  | Stack
  | Floating
  deriving DecidableEq, Repr

/-- The `WindowState` record of the `events.rs`/`actions.rs` revision (no
`tag` field; group has `Floating`). -/
structure WindowState where
  window : ℕ
  frame_window : ℕ
  x : ℤ
  y : ℤ
  width : ℤ
  height : ℤ
  group : WindowGroup
  deriving DecidableEq, Repr

/-- Modelled from the spec: a Tag (§3) — an ordered window list plus an
optional focused client id. -/
structure TagState where
  windows : List WindowState
  focus : Option ℕ

/-- Modelled from the spec: the TilingInfo of §3 (screen width/height, gap,
bar height, master/stack ratio). -/
structure TilingInfo where
  width : ℤ
  height : ℤ
  gap : ℤ
  bar_height : ℤ
  ratio : ℚ

/-- Modelled from the spec: the `StateHandler` store (missing from src/;
only its callers in events.rs/actions.rs are present): the tags (embedded
as a total function from tag index), the active tag, the tiling info. -/
structure StateHandler where
  tags : ℕ → TagState
  active_tag : ℕ
  tiling : TilingInfo

/-- Modelled from the spec: `get_window(id)` — "linear search active tag
only (matches client or frame id)" (§4.3). -/
def get_window_state (s : StateHandler) (id : ℕ) : Option WindowState :=
  (s.tags s.active_tag).windows.find? (fun w => w.window == id || w.frame_window == id)

/-- Point update of one tag of the store. -/
def updateTag (s : StateHandler) (t : ℕ) (f : TagState → TagState) : StateHandler :=
  { s with tags := Function.update s.tags t (f (s.tags t)) }

/-- Modelled from the spec: `add_window(w)` — "append; focus = w" (§4.3). -/
def add_window (s : StateHandler) (w : WindowState) : StateHandler :=
  updateTag s s.active_tag (fun t =>
    { t with windows := t.windows ++ [w], focus := some w.window })

/-- Modelled from the spec: `set_tag_focus_to_master` — "reassign focus to
the current master (last in list) or None if empty" (§4.2 UnmapNotify). -/
def set_tag_focus_to_master (s : StateHandler) : StateHandler :=
  updateTag s s.active_tag (fun t =>
    { t with focus := t.windows.getLast?.map (fun w => w.window) })

/-- Modelled from the spec: `switch_focus_next(delta)` — "set focus to
`(pos(focus) + delta) mod n` of the active tag's window list; no-op if
empty" (§4.3). -/
def switch_focus_next (s : StateHandler) (delta : ℤ) : StateHandler :=
  let ws := (s.tags s.active_tag).windows
  if ws.isEmpty then s
  else
    let pos : ℕ := match (s.tags s.active_tag).focus with
      | some f => ws.findIdx (fun w => w.window == f)
      | Option.none => 0
    let idx : ℕ := (((pos : ℤ) + delta) % (ws.length : ℤ)).toNat
    updateTag s s.active_tag (fun t =>
      { t with focus := ws[idx]?.map (fun w => w.window) })

/-- Modelled from the spec: `swap_master()` — "swap the focused window with
the current master; if the focused window IS the master and n>1, swap with
the penultimate entry" (§4.3). -/
def swap_master (s : StateHandler) : StateHandler :=
  let ws := (s.tags s.active_tag).windows
  match (s.tags s.active_tag).focus with
  | Option.none => s
  | some f =>
      let fi := ws.findIdx (fun w => w.window == f)
      if fi = ws.length - 1 ∧ 1 < ws.length then
        updateTag s s.active_tag (fun t =>
          { t with windows := RustWm.swapIdx ws (ws.length - 2) (ws.length - 1) })
      else
        updateTag s s.active_tag (fun t =>
          { t with windows := RustWm.swapIdx ws fi (ws.length - 1) })

/-- Modelled from the spec: refresh step (1), first half — "mark all
non-Floating windows Stack". -/
def classifyStack (ws : List WindowState) : List WindowState :=
  ws.map (fun w =>
    if w.group = WindowGroup.Floating then w else { w with group := WindowGroup.Stack })

/-- Modelled from the spec: refresh step (1), second half — "promote the
last element to Master if present" (Floating excluded from master/stack
assignment). -/
def promoteLast (ws : List WindowState) : List WindowState :=
  ws.enum.map (fun iw =>
    if iw.1 = ws.length - 1 ∧ ¬ iw.2.group = WindowGroup.Floating then
      { iw.2 with group := WindowGroup.Master }
    else iw.2)

/-- Modelled from the spec: refresh step (1) (§4.3). -/
def classify (ws : List WindowState) : List WindowState :=
  promoteLast (classifyStack ws)

/-- Modelled from the spec: the tiler of §4.4 as run by refresh step (2)
(the `StateHandler` implementation is missing from src/); only Master and
Stack windows are laid out, Floating windows keep their geometry. -/
def tileSpec (t : TilingInfo) (ws : List WindowState) : List WindowState :=
  let S := (ws.filter (fun w => decide (w.group = WindowGroup.Stack))).length
  ws.enum.map (fun iw =>
    match iw.2.group with
    | WindowGroup.Master =>
        { iw.2 with
          x := t.gap
          y := t.gap + t.bar_height
          width := if S = 0 then t.width - 2 * t.gap
                   else ⌊(t.width : ℚ) * (1 - t.ratio)⌋ - 2 * t.gap
          height := t.height - 2 * t.gap - t.bar_height }
    | WindowGroup.Stack =>
        { iw.2 with
          x := ⌊(t.width : ℚ) * (1 - t.ratio)⌋
          y := if iw.1 = 0 then t.gap + t.bar_height
               else (iw.1 : ℤ) * ((t.height.toNat / S : ℕ) : ℤ)
          width := ⌊(t.width : ℚ) * t.ratio⌋ - t.gap
          height := if iw.1 = 0 then ((t.height.toNat / S : ℕ) : ℤ) - 2 * t.gap - t.bar_height
                    else ((t.height.toNat / S : ℕ) : ℤ) - t.gap }
    | WindowGroup.Floating => iw.2)

/-- Embeds `EventHandler::refresh` restricted to the store mutation
(`self.man.refresh()`, spec §4.3 steps 1–2); the configure/focus/bar calls
are X side effects. -/
def refresh_state (s : StateHandler) : StateHandler :=
  updateTag s s.active_tag (fun t =>
    { t with windows := tileSpec s.tiling (classify t.windows) })

/-- Embeds `EventHandler::change_active_tag` (events.rs lines 241–251): no-op when
already active; otherwise unmap all (side effect), switch, map all (side
effect). -/
def change_active_tag (s : StateHandler) (tag : ℕ) : StateHandler :=
  if s.active_tag = tag then s else { s with active_tag := tag }

/-- Embeds `EventHandler::move_window` (events.rs lines 274–296); `focus_window`
is the reply of `conn.get_focus()`. -/
def move_window (s : StateHandler) (tag : ℕ) (focus_window : ℕ) : StateHandler :=
  if s.active_tag = tag then s
  else
    match get_window_state s focus_window with
    | Option.none => s
    | some st =>
        let s1 := updateTag s tag (fun t => { t with windows := t.windows ++ [st] })
        let s2 := updateTag s1 s1.active_tag (fun t =>
          { t with windows := t.windows.filter (fun w => w.window != focus_window) })
        set_tag_focus_to_master s2

/-- The hotkey actions of the `events.rs`/`config.rs` revision. -/
inductive HotkeyAction
  | Spawn (command : String)
  | ExitFocusedWindow
  | SwitchTag (n : ℕ)
  | MoveWindow (n : ℕ)
  | ChangeRatio (change : ℚ)
  | NextFocus (change : ℤ)
  | NextTag (change : ℤ)
  | SwapMaster
  deriving DecidableEq, Repr

/-- A built hotkey-table entry: modifier mask, keycode, action. -/
structure Hotkey where
  mask : ℕ
  code : ℕ
  action : HotkeyAction
  deriving DecidableEq, Repr

/-- keys.rs `get_registered_hotkey` / `KeyHandler::get_action` (keys.rs
lines 72–76): linear scan for `mask == h.mask && code == h.code`, first
match wins, returning its action. -/
def get_action (hotkeys : List Hotkey) (mask code : ℕ) : Option HotkeyAction :=
  (hotkeys.find? (fun h => mask == h.mask && code == h.code)).map (fun h => h.action)

/-- The state transition of one hotkey action (the `match action` block of
`EventHandler::handle_keypress`, events.rs lines 99–130).  The boolean is
false exactly on the early `return Ok(())` path (ExitFocusedWindow with no
focus), which skips the final `self.refresh()`. -/
def apply_action (s : StateHandler) (a : HotkeyAction) (focus_window : ℕ) :
    StateHandler × Bool :=
  match a with
  | HotkeyAction.SwitchTag n => (change_active_tag s (n - 1), true)
  | HotkeyAction.MoveWindow n => (move_window s (n - 1) focus_window, true)
  | HotkeyAction.Spawn _ => (s, true)
  | HotkeyAction.ExitFocusedWindow =>
      match (s.tags s.active_tag).focus with
      | Option.none => (s, false)
      | some _ => (s, true)
  | HotkeyAction.ChangeRatio c =>
      ({ s with tiling := { s.tiling with
          ratio := RustWm.change_ratio s.tiling.ratio c } }, true)
  | HotkeyAction.NextFocus c => (switch_focus_next s c, true)
  | HotkeyAction.NextTag c =>
      (change_active_tag s (((s.active_tag : ℤ) + c) % 9).toNat, true)
  | HotkeyAction.SwapMaster => (swap_master s, true)

/-- Embeds `EventHandler::handle_keypress` (events.rs lines 86–133): resolve the
(modifier, keycode) pair in the table; on no match return at once (state
untouched, no refresh).  The boolean records whether `refresh` ran. -/
def handle_keypress (s : StateHandler) (hotkeys : List Hotkey)
    (mask code focus_window : ℕ) : StateHandler × Bool :=
  match get_action hotkeys mask code with
  | Option.none => (s, false)
  | some a =>
      let r := apply_action s a focus_window
      if r.2 then (refresh_state r.1, true) else (r.1, false)

/-- One `if let Some(w) = get_window_state(...)` block of
`EventHandler::handle_enter`: set the active tag's focus to the found
window's client id. -/
def set_focus_if_found (s : StateHandler) (id : ℕ) : StateHandler :=
  match get_window_state s id with
  | some w => updateTag s s.active_tag (fun t => { t with focus := some w.window })
  | Option.none => s

/-- Embeds `EventHandler::handle_enter` (events.rs lines 135–151): look the
entered window up by `event.child` and by `event.event` (client or frame
id), focus it, refresh. -/
def handle_enter (s : StateHandler) (child eventw : ℕ) : StateHandler :=
  refresh_state (set_focus_if_found (set_focus_if_found s child) eventw)

/-- Embeds `EventHandler::handle_map_request` (events.rs lines 44–61): ignore
known clients; otherwise adopt (frame id and geometry from the server),
add, refresh. -/
def handle_map_request (s : StateHandler) (window frame : ℕ)
    (gx gy gw gh : ℤ) : StateHandler :=
  match get_window_state s window with
  | some _ => s
  | Option.none =>
      refresh_state (add_window s
        { window := window, frame_window := frame,
          x := gx, y := gy, width := gw, height := gh,
          group := WindowGroup.Stack })

/-- Embeds `EventHandler::handle_unmap_notify` (events.rs lines 63–84): ignore
unknown windows; otherwise destroy the frame (side effect), retain the
rest, focus the master, refresh. -/
def handle_unmap_notify (s : StateHandler) (window : ℕ) : StateHandler :=
  match get_window_state s window with
  | Option.none => s
  | some _ =>
      let s1 := updateTag s s.active_tag (fun t =>
        { t with windows := t.windows.filter (fun w => w.window != window) })
      refresh_state (set_tag_focus_to_master s1)

/-- Embeds `EventHandler::handle_config` (events.rs lines 153–159): for a window
known to the store, forward `ConnectionHandler::handle_config`'s request;
for an unknown window, do nothing. -/
def handle_config (s : StateHandler) (e : Xproto.ConfigureRequestEvent) :
    Option (ℕ × Xproto.ConfigureWindowAux) :=
  match get_window_state s e.window with
  | some _ => some (ActionsRs.handle_config e)
  | Option.none => Option.none

/-- The `_NET_WM_STATE_FULLSCREEN` add-branch of
`EventHandler::handle_client_message` (events.rs lines 194–202). -/
def set_fullscreen_state (s : StateHandler) (id : ℕ) : StateHandler :=
  updateTag s s.active_tag (fun t =>
    { t with windows := t.windows.map (fun w =>
        if w.window = id then
          { w with
            group := WindowGroup.Floating
            x := 0
            y := 0
            width := s.tiling.width
            height := s.tiling.height }
        else w) })

/-- The `_NET_WM_STATE_FULLSCREEN` remove-branch of
`EventHandler::handle_client_message` (events.rs lines 188–193). -/
def set_window_group (s : StateHandler) (id : ℕ) (g : WindowGroup) : StateHandler :=
  updateTag s s.active_tag (fun t =>
    { t with windows := t.windows.map (fun w =>
        if w.window = id then { w with group := g } else w) })

/-- Embeds `EventHandler::handle_client_message` (events.rs lines 161–213); the
two booleans record the atom-name comparisons `_NET_WM_STATE` and
`_NET_WM_STATE_FULLSCREEN`. -/
def handle_client_message (s : StateHandler) (window : ℕ) (data0 data1 : ℕ)
    (is_wm_state is_fullscreen : Bool) : StateHandler :=
  if data1 = 0 then s
  else if is_wm_state && is_fullscreen then
    match get_window_state s window with
    | Option.none => s
    | some st =>
        match data0 with
        | 0 => refresh_state (set_window_group s st.window WindowGroup.Stack)
        | 1 => refresh_state (set_fullscreen_state s st.window)
        | _ => s
  else s

/-- The events the router dispatches on (events.rs lines 19–42), with the
server-provided data (frame id, geometry, input focus) carried in the
event. -/
inductive Event
  | MapRequest (window frame : ℕ) (gx gy gw gh : ℤ)
  | UnmapNotify (window : ℕ)
  | KeyPress (mask code focus_window : ℕ)
  | EnterNotify (child eventw : ℕ)
  | ConfigureRequest (e : Xproto.ConfigureRequestEvent)
  | ClientMessage (window data0 data1 : ℕ) (is_wm_state is_fullscreen : Bool)
  | Other

/-- Embeds `EventHandler::handle_event`: the store transition of one event. -/
def handle_event (s : StateHandler) (hotkeys : List Hotkey) (e : Event) :
    StateHandler :=
  match e with
  | Event.MapRequest w f gx gy gw gh => handle_map_request s w f gx gy gw gh
  | Event.UnmapNotify w => handle_unmap_notify s w
  | Event.KeyPress mask code fw => (handle_keypress s hotkeys mask code fw).1
  | Event.EnterNotify c ev => handle_enter s c ev
  | Event.ConfigureRequest _ => s
  | Event.ClientMessage w d0 d1 b1 b2 => handle_client_message s w d0 d1 b1 b2
  | Event.Other => s

/-- The start-up store: nine empty tags (embedded as all tags empty), tag 0
active. -/
def initState (t : TilingInfo) : StateHandler :=
  { tags := fun _ => { windows := [], focus := Option.none }
    active_tag := 0
    tiling := t }

end EventsRs

/-! ### Claims C3 and C4 — ConfigureRequest forwarding -/

abbrev tDemo : EventsRs.TilingInfo :=
  { width := 1000, height := 600, gap := 10, bar_height := 20, ratio := 1/2 }

abbrev wEv5 : EventsRs.WindowState :=
  ⟨5, 105, 0, 0, 10, 10, EventsRs.WindowGroup.Master⟩

/-- A store that knows client 5 on the active tag. -/
abbrev sKnown5 : EventsRs.StateHandler :=
  { tags := fun t =>
      if t = 0 then { windows := [wEv5], focus := some 5 }
      else { windows := [], focus := Option.none }
    active_tag := 0
    tiling := tDemo }

/-- A store that knows no window at all. -/
abbrev sEmpty : EventsRs.StateHandler :=
  { tags := fun _ => { windows := [], focus := Option.none }
    active_tag := 0
    tiling := tDemo }

/-- A ConfigureRequest for window 5 that sets x, y, width, height, sibling
and stack_mode in its value_mask. -/
abbrev ceStack : Xproto.ConfigureRequestEvent :=
  { window := 5, x := 7, y := 8, width := 300, height := 200
    border_width := 0, sibling := 9, stack_mode := 1
    value_mask := ⟨true, true, true, true, false, true, true⟩ }

/-- Counterexample to C3: for a window known to the store, the
`events.rs`/`actions.rs` path forwards the request's sibling and stack_mode
(they are not stripped). -/
theorem c3_counterexample_stack_mode_forwarded :
    EventsRs.handle_config sKnown5 ceStack
      = some (5, { x := some 7, y := some 8, width := some 300
                   height := some 200, border_width := Option.none
                   sibling := some 9, stack_mode := some 1 }) := by
  rfl

/-- C3 (amended): for a ConfigureRequest on a known window the router
forwards the requested x/y/width/height, but it also forwards sibling and
stack_mode whenever the request names them — the aux is exactly
`from_configure_request` with nothing stripped; only the older `main.rs`
path (`config_event_window`) strips sibling and stack_mode, and it does so
for every window. -/
theorem c3_config_forwarding (s : EventsRs.StateHandler)
    (e : Xproto.ConfigureRequestEvent) (w : EventsRs.WindowState)
    (hknown : EventsRs.get_window_state s e.window = some w) :
    EventsRs.handle_config s e = some (e.window, Xproto.from_configure_request e)
    ∧ (Xproto.from_configure_request e).x
        = (if e.value_mask.x then some e.x else Option.none)
    ∧ (Xproto.from_configure_request e).y
        = (if e.value_mask.y then some e.y else Option.none)
    ∧ (Xproto.from_configure_request e).width
        = (if e.value_mask.width then some e.width else Option.none)
    ∧ (Xproto.from_configure_request e).height
        = (if e.value_mask.height then some e.height else Option.none)
    ∧ (Xproto.from_configure_request e).sibling
        = (if e.value_mask.sibling then some e.sibling else Option.none)
    ∧ (Xproto.from_configure_request e).stack_mode
        = (if e.value_mask.stack_mode then some e.stack_mode else Option.none)
    ∧ (MainRs.config_event_window e).1 = e.window
    ∧ (MainRs.config_event_window e).2.sibling = Option.none
    ∧ (MainRs.config_event_window e).2.stack_mode = Option.none := by
  refine ⟨?_, rfl, rfl, rfl, rfl, rfl, rfl, rfl, rfl, rfl⟩
  unfold EventsRs.handle_config
  rw [hknown]
  rfl

/-- Witness for C3's amended theorem on the concrete store above. -/
theorem c3_config_forwarding_witness :
    EventsRs.get_window_state sKnown5 ceStack.window = some wEv5 ∧
    (EventsRs.handle_config sKnown5 ceStack
        = some (ceStack.window, Xproto.from_configure_request ceStack)
     ∧ (Xproto.from_configure_request ceStack).x
         = (if ceStack.value_mask.x then some ceStack.x else Option.none)
     ∧ (Xproto.from_configure_request ceStack).y
         = (if ceStack.value_mask.y then some ceStack.y else Option.none)
     ∧ (Xproto.from_configure_request ceStack).width
         = (if ceStack.value_mask.width then some ceStack.width else Option.none)
     ∧ (Xproto.from_configure_request ceStack).height
         = (if ceStack.value_mask.height then some ceStack.height else Option.none)
     ∧ (Xproto.from_configure_request ceStack).sibling
         = (if ceStack.value_mask.sibling then some ceStack.sibling else Option.none)
     ∧ (Xproto.from_configure_request ceStack).stack_mode
         = (if ceStack.value_mask.stack_mode then some ceStack.stack_mode else Option.none)
     ∧ (MainRs.config_event_window ceStack).1 = ceStack.window
     ∧ (MainRs.config_event_window ceStack).2.sibling = Option.none
     ∧ (MainRs.config_event_window ceStack).2.stack_mode = Option.none) :=
  ⟨rfl, c3_config_forwarding sKnown5 ceStack wEv5 rfl⟩

/-- Counterexample to C4: a ConfigureRequest for an unknown window is not
passed through unchanged — the `events.rs` router drops it entirely, and
the `main.rs` path forwards it with sibling/stack_mode suppressed (so not
unchanged when the request names them). -/
theorem c4_counterexample_unknown_not_passed_through :
    EventsRs.handle_config sEmpty ceStack = Option.none
    ∧ MainRs.handle_configure_request ceStack
        ≠ (ceStack.window, Xproto.from_configure_request ceStack) := by
  exact ⟨rfl, by decide⟩

/-- C4 (amended): for a ConfigureRequest whose window is unknown to the
store, the `events.rs` router issues nothing at all, while the `main.rs`
revision forwards it with sibling and stack_mode stripped (unchanged only
when the request does not name them). -/
theorem c4_unmanaged_config (s : EventsRs.StateHandler)
    (e : Xproto.ConfigureRequestEvent)
    (hunknown : EventsRs.get_window_state s e.window = Option.none) :
    EventsRs.handle_config s e = Option.none
    ∧ MainRs.handle_configure_request e
        = (e.window, { Xproto.from_configure_request e with
            sibling := Option.none, stack_mode := Option.none }) := by
  constructor
  · unfold EventsRs.handle_config
    rw [hunknown]
  · rfl

/-- Witness for C4's amended theorem on the empty store. -/
theorem c4_unmanaged_config_witness :
    EventsRs.get_window_state sEmpty ceStack.window = Option.none ∧
    (EventsRs.handle_config sEmpty ceStack = Option.none
     ∧ MainRs.handle_configure_request ceStack
         = (ceStack.window, { Xproto.from_configure_request ceStack with
             sibling := Option.none, stack_mode := Option.none })) :=
  ⟨rfl, c4_unmanaged_config sEmpty ceStack rfl⟩

/-! ### Claim C8 — ratio clamp -/

namespace RustWm

theorem change_ratio_bounds (s d : ℚ) :
    lit015 ≤ change_ratio s d ∧ change_ratio s d ≤ lit085 := by
  unfold change_ratio clampQ
  split_ifs with h1 h2
  · exact ⟨le_refl _, lit015_le_lit085⟩
  · exact ⟨lit015_le_lit085, le_refl _⟩
  · exact ⟨not_lt.mp h1, not_lt.mp h2⟩

theorem foldl_change_ratio_bounds (ds : List ℚ) :
    ∀ r : ℚ, lit015 ≤ r → r ≤ lit085 →
      lit015 ≤ ds.foldl change_ratio r ∧ ds.foldl change_ratio r ≤ lit085 := by
  induction ds with
  | nil => intro r h1 h2; exact ⟨h1, h2⟩
  | cons d t ih =>
      intro r _ _
      have hb := change_ratio_bounds r d
      exact ih (change_ratio r d) hb.1 hb.2

end RustWm

/-- C8 counterexample: a single `ChangeRatio(+1.0)` from ratio 0.5 yields
the ratio `0.85f32 = 7130317/2^23 ≈ 0.850000024`, which is strictly
greater than 0.85: the clamp ceiling of events.rs line 117 is the f32
value of the literal `0.85`, not 0.85 itself. -/
theorem c8_counterexample_ratio_above_085 :
    RustWm.change_ratio (1/2) 1 = 7130317/8388608 ∧
    (17/20 : ℚ) < 7130317/8388608 := by
  constructor
  · have hadd : RustWm.fadd (1/2 : ℚ) 1 = 3/2 := by
      show RustWm.f32round ((1/2 : ℚ) + 1) = 3/2
      have h : (1/2 : ℚ) + 1 = 3/2 := by norm_num
      rw [h]
      exact RustWm.f32round_eq_self 3 (-1) (by norm_num) (by norm_num) (by norm_num)
    unfold RustWm.change_ratio RustWm.clampQ
    rw [hadd, RustWm.lit015_val, RustWm.lit085_val]
    norm_num
  · norm_num

/-- C8 (amended): every `ChangeRatio(delta)` sets the ratio to
`clamp(ratio ⊕ delta, 0.15f32, 0.85f32)` where `⊕` is f32 addition and the
clamp bounds are the f32 values of the literals,
`0.15f32 = 5033165/2^25 ≈ 0.150000006` and
`0.85f32 = 7130317/2^23 ≈ 0.850000024` (Rust's `clamp` equals the
`max lo (min hi ·)` form); so after any nonempty sequence of `ChangeRatio`
applications the ratio lies in `[0.15f32, 0.85f32]`: repeated
`ChangeRatio(+1.0)` never exceeds `0.85f32` — though that bound exceeds
0.85 by about `2.4e-8`, as the counterexample shows — and repeated
`ChangeRatio(-1.0)` never drops below `0.15f32`. -/
theorem c8_ratio_clamp (r : ℚ) (ds : List ℚ) (h : ds ≠ []) :
    (∀ s d : ℚ, RustWm.change_ratio s d
        = max RustWm.lit015 (min RustWm.lit085 (RustWm.fadd s d)))
    ∧ RustWm.lit015 = 5033165/33554432
    ∧ RustWm.lit085 = 7130317/8388608
    ∧ RustWm.lit015 ≤ ds.foldl RustWm.change_ratio r
    ∧ ds.foldl RustWm.change_ratio r ≤ RustWm.lit085 := by
  refine ⟨?_, RustWm.lit015_val, RustWm.lit085_val, ?_⟩
  · intro s d
    unfold RustWm.change_ratio RustWm.clampQ
    rcases lt_or_le (RustWm.fadd s d) RustWm.lit015 with h1 | h1
    · rw [if_pos h1, eq_comm]
      exact max_eq_left (le_trans (min_le_right _ _) (le_of_lt h1))
    · rw [if_neg (not_lt.mpr h1)]
      rcases lt_or_le RustWm.lit085 (RustWm.fadd s d) with h2 | h2
      · rw [if_pos h2, eq_comm, min_eq_left (le_of_lt h2)]
        exact max_eq_right RustWm.lit015_le_lit085
      · rw [if_neg (not_lt.mpr h2), eq_comm, min_eq_right h2]
        exact max_eq_right h1
  · rcases ds with _ | ⟨d, t⟩
    · exact absurd rfl h
    · show RustWm.lit015 ≤ (d :: t).foldl RustWm.change_ratio r
        ∧ (d :: t).foldl RustWm.change_ratio r ≤ RustWm.lit085
      rw [List.foldl_cons]
      have hb := RustWm.change_ratio_bounds r d
      exact RustWm.foldl_change_ratio_bounds t _ hb.1 hb.2

/-- Witness for C8: one `ChangeRatio(+1.0)` from the default ratio 0.5. -/
theorem c8_ratio_clamp_witness :
    ([(1 : ℚ)] ≠ []) ∧
    ((∀ s d : ℚ, RustWm.change_ratio s d
        = max RustWm.lit015 (min RustWm.lit085 (RustWm.fadd s d)))
     ∧ RustWm.lit015 = 5033165/33554432
     ∧ RustWm.lit085 = 7130317/8388608
     ∧ RustWm.lit015 ≤ [(1 : ℚ)].foldl RustWm.change_ratio (1/2)
     ∧ [(1 : ℚ)].foldl RustWm.change_ratio (1/2) ≤ RustWm.lit085) :=
  ⟨List.cons_ne_nil 1 [], c8_ratio_clamp (1/2) [1] (List.cons_ne_nil 1 [])⟩

/-! ### Claim C10 — unmatched keypress is a no-op -/

/-- C10: a KeyPress whose (modifier, keycode) pair matches no hotkey-table
entry returns with the store fully unchanged and without running refresh
(events.rs lines 86–90 return before touching anything). -/
theorem c10_unmatched_keypress (s : EventsRs.StateHandler)
    (hotkeys : List EventsRs.Hotkey) (mask code focus_window : ℕ)
    (h : EventsRs.get_action hotkeys mask code = Option.none) :
    EventsRs.handle_keypress s hotkeys mask code focus_window = (s, false) := by
  unfold EventsRs.handle_keypress
  rw [h]

/-- Witness for C10: a one-entry table and a non-matching keypress. -/
theorem c10_unmatched_keypress_witness :
    EventsRs.get_action [⟨64, 36, EventsRs.HotkeyAction.SwapMaster⟩] 1 2 = Option.none ∧
    EventsRs.handle_keypress sEmpty [⟨64, 36, EventsRs.HotkeyAction.SwapMaster⟩] 1 2 0
      = (sEmpty, false) :=
  ⟨rfl, c10_unmatched_keypress sEmpty [⟨64, 36, EventsRs.HotkeyAction.SwapMaster⟩] 1 2 0 rfl⟩

/-! ### Claim C9 — focus validity invariant -/

namespace RustWm

theorem mem_swapIdx_of_mem {α : Type} {l : List α} {x : α} (hx : x ∈ l) (i j : ℕ) :
    x ∈ swapIdx l i j := by
  unfold swapIdx
  cases h1 : l[i]? with
  | none => exact hx
  | some a =>
    cases h2 : l[j]? with
    | none => exact hx
    | some b =>
      obtain ⟨hi, hia⟩ := List.getElem?_eq_some.mp h1
      obtain ⟨hj, hjb⟩ := List.getElem?_eq_some.mp h2
      obtain ⟨k, hk, hkx⟩ := List.mem_iff_getElem.mp hx
      rcases eq_or_ne k i with rfl | hki
      · refine List.mem_iff_getElem.mpr ⟨j, by simp [hj], ?_⟩
        rw [List.getElem_set, if_pos rfl]
        exact hia.symm.trans hkx
      · rcases eq_or_ne k j with rfl | hkj
        · refine List.mem_iff_getElem.mpr ⟨i, by simp [hi], ?_⟩
          rw [List.getElem_set, if_neg (by omega : ¬ k = i), List.getElem_set, if_pos rfl]
          exact hjb.symm.trans hkx
        · refine List.mem_iff_getElem.mpr ⟨k, by simp [hk], ?_⟩
          rw [List.getElem_set, if_neg (by omega : ¬ j = k),
            List.getElem_set, if_neg (by omega : ¬ i = k)]
          exact hkx

end RustWm

namespace EventsRs

/-- The per-tag focus invariant: if the focus names a client id, that id
belongs to the tag's window list. -/
def FocusValidTag (t : TagState) : Prop :=
  ∀ id, t.focus = some id → id ∈ t.windows.map (fun w => w.window)

/-- The store-wide focus invariant of the claim (spec §8, "Focus
validity"). -/
def FocusValid (s : StateHandler) : Prop := ∀ tg, FocusValidTag (s.tags tg)

theorem focusValidTag_of_ids_eq (t t' : TagState)
    (hfocus : t'.focus = t.focus)
    (hids : t'.windows.map (fun w => w.window) = t.windows.map (fun w => w.window))
    (h : FocusValidTag t) : FocusValidTag t' := by
  intro id hid
  rw [hids]
  exact h id (hfocus ▸ hid)

theorem focusValid_updateTag {s : StateHandler} {t : ℕ} {f : TagState → TagState}
    (h : FocusValid s) (hf : FocusValidTag (f (s.tags t))) :
    FocusValid (updateTag s t f) := by
  intro tg
  show FocusValidTag (Function.update s.tags t (f (s.tags t)) tg)
  rcases eq_or_ne tg t with rfl | hne
  · rw [Function.update_same]; exact hf
  · rw [Function.update_noteq hne]; exact h tg

theorem map_window_map {f : WindowState → WindowState}
    (hf : ∀ w, (f w).window = w.window) (ws : List WindowState) :
    (ws.map f).map (fun w => w.window) = ws.map (fun w => w.window) := by
  rw [List.map_map]
  exact List.map_congr_left (fun a _ => hf a)

theorem classify_ids (ws : List WindowState) :
    (classify ws).map (fun w => w.window) = ws.map (fun w => w.window) := by
  unfold classify promoteLast classifyStack
  rw [RustWm.enum_map_preserves]
  · exact map_window_map (fun w => by split_ifs <;> rfl) ws
  · intro i w
    split_ifs <;> rfl

theorem tileSpec_ids (t : TilingInfo) (ws : List WindowState) :
    (tileSpec t ws).map (fun w => w.window) = ws.map (fun w => w.window) := by
  unfold tileSpec
  rw [RustWm.enum_map_preserves]
  intro i w
  rcases w with ⟨win, fr, x, y, wd, ht, g⟩
  cases g <;> rfl

theorem refresh_state_preserves {s : StateHandler} (h : FocusValid s) :
    FocusValid (refresh_state s) := by
  refine focusValid_updateTag h ?_
  refine focusValidTag_of_ids_eq (s.tags s.active_tag) _ rfl ?_ (h s.active_tag)
  show (tileSpec s.tiling (classify (s.tags s.active_tag).windows)).map _ = _
  rw [tileSpec_ids, classify_ids]

theorem change_active_tag_preserves {s : StateHandler} {t : ℕ} (h : FocusValid s) :
    FocusValid (change_active_tag s t) := by
  unfold change_active_tag
  split_ifs
  · exact h
  · exact h

theorem add_window_preserves {s : StateHandler} {w : WindowState}
    (h : FocusValid s) : FocusValid (add_window s w) := by
  refine focusValid_updateTag h ?_
  intro id hid
  simp only at hid
  cases hid
  rw [List.map_append]
  exact List.mem_append.mpr (Or.inr (List.mem_singleton.mpr rfl))

/-- Lemma: `set_tag_focus_to_master` makes the active tag valid by construction;
it only needs the other tags to be valid. -/
theorem set_tag_focus_to_master_valid {s : StateHandler}
    (h : ∀ tg, tg ≠ s.active_tag → FocusValidTag (s.tags tg)) :
    FocusValid (set_tag_focus_to_master s) := by
  intro tg
  show FocusValidTag (Function.update s.tags s.active_tag _ tg)
  rcases eq_or_ne tg s.active_tag with rfl | hne
  · rw [Function.update_same]
    intro id hid
    simp only at hid
    obtain ⟨lw, hlw, hlwid⟩ := Option.map_eq_some'.mp hid
    rw [List.getLast?_eq_getElem?] at hlw
    exact List.mem_map.mpr ⟨lw, RustWm.mem_of_getElem?_eq_some hlw, hlwid⟩
  · rw [Function.update_noteq hne]
    exact h tg hne

theorem set_tag_focus_to_master_preserves {s : StateHandler} (h : FocusValid s) :
    FocusValid (set_tag_focus_to_master s) :=
  set_tag_focus_to_master_valid (fun tg _ => h tg)

theorem switch_focus_next_preserves {s : StateHandler} {d : ℤ} (h : FocusValid s) :
    FocusValid (switch_focus_next s d) := by
  unfold switch_focus_next
  dsimp only
  split_ifs
  · exact h
  · refine focusValid_updateTag h ?_
    intro id hid
    simp only at hid
    obtain ⟨w, hw, hwid⟩ := Option.map_eq_some'.mp hid
    exact List.mem_map.mpr ⟨w, RustWm.mem_of_getElem?_eq_some hw, hwid⟩

theorem swap_master_preserves {s : StateHandler} (h : FocusValid s) :
    FocusValid (swap_master s) := by
  have hswap : ∀ (i j : ℕ), FocusValid (updateTag s s.active_tag (fun t =>
      { t with windows := RustWm.swapIdx (s.tags s.active_tag).windows i j })) := by
    intro i j
    refine focusValid_updateTag h ?_
    intro id hid
    simp only at hid
    have hmem := h s.active_tag id hid
    obtain ⟨w, hw, hwid⟩ := List.mem_map.mp hmem
    exact List.mem_map.mpr ⟨w, RustWm.mem_swapIdx_of_mem hw i j, hwid⟩
  unfold swap_master
  cases hf : (s.tags s.active_tag).focus with
  | none => exact h
  | some f =>
      dsimp only
      split_ifs
      · exact hswap _ _
      · exact hswap _ _

theorem move_window_preserves {s : StateHandler} {tag fw : ℕ} (h : FocusValid s) :
    FocusValid (move_window s tag fw) := by
  unfold move_window
  split_ifs with hsame
  · exact h
  cases hg : get_window_state s fw with
  | none => exact h
  | some st =>
      dsimp only
      refine set_tag_focus_to_master_valid ?_
      intro tg hne
      simp only [updateTag] at hne ⊢
      simp only [Function.update_apply]
      split_ifs with h1 h2
      · exact absurd h1 hne
      · intro id hid
        simp only at hid
        have := h tag id hid
        rw [List.map_append]
        exact List.mem_append.mpr (Or.inl this)
      · exact h tg

end EventsRs

namespace EventsRs

theorem set_focus_if_found_preserves {s : StateHandler} {id0 : ℕ}
    (h : FocusValid s) : FocusValid (set_focus_if_found s id0) := by
  unfold set_focus_if_found
  cases hg : get_window_state s id0 with
  | none => exact h
  | some w =>
      refine focusValid_updateTag h ?_
      intro id hid
      simp only at hid
      cases hid
      have hw : w ∈ (s.tags s.active_tag).windows := List.mem_of_find?_eq_some hg
      exact List.mem_map.mpr ⟨w, hw, rfl⟩

theorem handle_enter_preserves {s : StateHandler} {child eventw : ℕ}
    (h : FocusValid s) : FocusValid (handle_enter s child eventw) :=
  refresh_state_preserves (set_focus_if_found_preserves (set_focus_if_found_preserves h))

theorem handle_map_request_preserves {s : StateHandler} {window frame : ℕ}
    {gx gy gw gh : ℤ} (h : FocusValid s) :
    FocusValid (handle_map_request s window frame gx gy gw gh) := by
  unfold handle_map_request
  cases get_window_state s window with
  | some _ => exact h
  | none => exact refresh_state_preserves (add_window_preserves h)

theorem handle_unmap_notify_preserves {s : StateHandler} {window : ℕ}
    (h : FocusValid s) : FocusValid (handle_unmap_notify s window) := by
  unfold handle_unmap_notify
  cases get_window_state s window with
  | none => exact h
  | some w =>
      dsimp only
      refine refresh_state_preserves (set_tag_focus_to_master_valid ?_)
      intro tg hne
      simp only [updateTag] at hne ⊢
      simp only [Function.update_apply]
      split_ifs with h1
      · exact absurd h1 hne
      · exact h tg

theorem set_window_group_preserves {s : StateHandler} {id : ℕ} {g : WindowGroup}
    (h : FocusValid s) : FocusValid (set_window_group s id g) := by
  refine focusValid_updateTag h ?_
  refine focusValidTag_of_ids_eq (s.tags s.active_tag) _ rfl ?_ (h s.active_tag)
  exact map_window_map (fun w => by split_ifs <;> rfl) _

theorem set_fullscreen_state_preserves {s : StateHandler} {id : ℕ}
    (h : FocusValid s) : FocusValid (set_fullscreen_state s id) := by
  refine focusValid_updateTag h ?_
  refine focusValidTag_of_ids_eq (s.tags s.active_tag) _ rfl ?_ (h s.active_tag)
  exact map_window_map (fun w => by split_ifs <;> rfl) _

theorem handle_client_message_preserves {s : StateHandler}
    {window data0 data1 : ℕ} {b1 b2 : Bool} (h : FocusValid s) :
    FocusValid (handle_client_message s window data0 data1 b1 b2) := by
  unfold handle_client_message
  split_ifs
  · exact h
  · cases get_window_state s window with
    | none => exact h
    | some st =>
        dsimp only
        rcases data0 with _ | _ | d0
        · exact refresh_state_preserves (set_window_group_preserves h)
        · exact refresh_state_preserves (set_fullscreen_state_preserves h)
        · exact h
  · exact h

theorem apply_action_preserves {s : StateHandler} {a : HotkeyAction}
    {fw : ℕ} (h : FocusValid s) : FocusValid (apply_action s a fw).1 := by
  cases a with
  | Spawn c => exact h
  | ExitFocusedWindow =>
      unfold apply_action
      cases (s.tags s.active_tag).focus <;> exact h
  | SwitchTag n => exact change_active_tag_preserves h
  | MoveWindow n => exact move_window_preserves h
  | ChangeRatio c => exact fun tg => h tg
  | NextFocus c => exact switch_focus_next_preserves h
  | NextTag c => exact change_active_tag_preserves h
  | SwapMaster => exact swap_master_preserves h

theorem handle_keypress_preserves {s : StateHandler} {hotkeys : List Hotkey}
    {mask code fw : ℕ} (h : FocusValid s) :
    FocusValid (handle_keypress s hotkeys mask code fw).1 := by
  unfold handle_keypress
  cases get_action hotkeys mask code with
  | none => exact h
  | some a =>
      dsimp only
      split_ifs
      · exact refresh_state_preserves (apply_action_preserves h)
      · exact apply_action_preserves h

theorem handle_event_preserves {s : StateHandler} {hotkeys : List Hotkey}
    {e : Event} (h : FocusValid s) : FocusValid (handle_event s hotkeys e) := by
  cases e with
  | MapRequest w f gx gy gw gh => exact handle_map_request_preserves h
  | UnmapNotify w => exact handle_unmap_notify_preserves h
  | KeyPress mask code fw => exact handle_keypress_preserves h
  | EnterNotify c ev => exact handle_enter_preserves h
  | ConfigureRequest e => exact h
  | ClientMessage w d0 d1 b1 b2 => exact handle_client_message_preserves h
  | Other => exact h

theorem initState_focusValid (t : TilingInfo) : FocusValid (initState t) :=
  fun _ _ hid => nomatch hid

end EventsRs

/-- C9: in every reachable store state (any event sequence from start-up),
every tag whose focus is `Some(id)` has a window with client id `id` in
that same tag's list; and every event handler — including `handle_enter`,
which may find the entered window by client or frame id — preserves this
invariant. -/
theorem c9_focus_validity (hotkeys : List EventsRs.Hotkey) (t : EventsRs.TilingInfo) :
    (∀ (s : EventsRs.StateHandler) (e : EventsRs.Event),
        EventsRs.FocusValid s → EventsRs.FocusValid (EventsRs.handle_event s hotkeys e))
    ∧ ∀ evs : List EventsRs.Event,
        EventsRs.FocusValid
          (evs.foldl (fun s e => EventsRs.handle_event s hotkeys e)
            (EventsRs.initState t)) := by
  constructor
  · exact fun s e h => EventsRs.handle_event_preserves h
  · intro evs
    have hgen : ∀ (l : List EventsRs.Event) (s : EventsRs.StateHandler),
        EventsRs.FocusValid s →
        EventsRs.FocusValid (l.foldl (fun s e => EventsRs.handle_event s hotkeys e) s) := by
      intro l
      induction l with
      | nil => exact fun s h => h
      | cons e rest ih =>
          intro s h
          exact ih _ (EventsRs.handle_event_preserves h)
    exact hgen evs _ (EventsRs.initState_focusValid t)

/-- Witness for C9: the empty table, one EnterNotify event, starting from
the empty store. -/
theorem c9_focus_validity_witness :
    EventsRs.FocusValid sEmpty ∧
    EventsRs.FocusValid (EventsRs.handle_event sEmpty [] (EventsRs.Event.EnterNotify 1 2)) ∧
    EventsRs.FocusValid
      ([EventsRs.Event.EnterNotify 1 2].foldl
        (fun s e => EventsRs.handle_event s [] e) (EventsRs.initState tDemo)) :=
  ⟨(fun _ _ hid => nomatch hid),
   ⟨(c9_focus_validity [] tDemo).1 sEmpty (EventsRs.Event.EnterNotify 1 2)
      (fun _ _ hid => nomatch hid),
    (c9_focus_validity [] tDemo).2 [EventsRs.Event.EnterNotify 1 2]⟩⟩

/-! ## `src/keys.rs` and `src/config.rs` — hotkey parsing and table build -/

namespace KeysRs

/-- xkeysym `Keysym::from_char`: a Latin-1 character maps to its code
point, any other character to its code point + 0x1000000. -/
def keysym_from_char (c : Char) : ℕ :=
  if c.toNat ≤ 0xff then c.toNat else c.toNat + 0x1000000

/-- X keysym values for the named keys appearing in keys.rs/config.rs. -/
def XK_Return : ℕ := 0xff0d

def XK_Left : ℕ := 0xff51

def XK_Right : ℕ := 0xff53

def XF86_AudioLowerVolume : ℕ := 0x1008ff11

def XF86_AudioMute : ℕ := 0x1008ff12

def XF86_AudioRaiseVolume : ℕ := 0x1008ff13

def XF86_MonBrightnessUp : ℕ := 0x1008ff02

def XF86_MonBrightnessDown : ℕ := 0x1008ff03

/-- keys.rs `get_hotkeys` key parsing (lines 90–98): the recognized named
aliases, and for every other string the first character via
`Keysym::from_char`. -/
def parse_key (s : String) : ℕ :=
  match s with
  | "Return" => XK_Return
  | "XF86_MonBrightnessUp" => XF86_MonBrightnessUp
  | "XF86_MonBrightnessDown" => XF86_MonBrightnessDown
  | "XF86_AudioRaiseVolume" => XF86_AudioRaiseVolume
  | "XF86_AudioLowerVolume" => XF86_AudioLowerVolume
  | "XF86_AudioMute" => XF86_AudioMute
  | c => keysym_from_char c.front

/-- keys.rs modifier-token parsing (lines 82–88): CONTROL, SHIFT and MOD
(= Mod4); unknown tokens give the empty mask. -/
def parse_modifier_token (m : String) : ℕ :=
  match m with
  | "CONTROL" => 0x4
  | "SHIFT" => 0x1
  | "MOD" => 0x40
  | _ => 0

/-- Rust `str::split('|')` over the character list (structural, so that
concrete tables evaluate in the kernel). -/
def splitOnBar : List Char → List (List Char)
  | [] => [[]]
  | c :: cs =>
      let r := splitOnBar cs
      if c = '|' then [] :: r
      else
        match r with
        | [] => [[c]]
        | g :: gs => (c :: g) :: gs

/-- keys.rs lines 81–89: split on `|`, map the tokens to masks, OR them
together onto the default (empty) mask. -/
def parse_modifiers (s : String) : ℕ :=
  ((splitOnBar s.toList).map (fun cs => parse_modifier_token (String.mk cs))).foldl
    (fun acc m => acc ||| m) 0

/-- The keyboard-mapping data as stored by `KeyHandler::new` (keys.rs
lines 56–70); as in the source, the stored `max_code` field is
`max_keycode - min_keycode + 1`. -/
structure KeyboardMapping where
  min_code : ℕ
  max_code : ℕ
  keysyms_per_keycode : ℕ
  keysyms : List ℕ

/-- Embeds `KeyHandler::code_to_sym` (keys.rs lines 120–128); the external
`xkeysym::keysym` lookup at index 0 is modelled as the column-0 read of
the server's mapping table. -/
def code_to_sym (k : KeyboardMapping) (code : ℕ) : Option ℕ :=
  if code < k.min_code then Option.none
  else k.keysyms[(code - k.min_code) * k.keysyms_per_keycode]?

/-- Embeds `KeyHandler::sym_to_code` (keys.rs lines 130–139): scan
`min_code..=max_code` for the first keycode whose keysym matches. -/
def sym_to_code (k : KeyboardMapping) (sym : ℕ) : Option ℕ :=
  (List.range' k.min_code (k.max_code + 1 - k.min_code)).find?
    (fun i => code_to_sym k i == some sym)

/-- The built hotkey entry of this revision (keys.rs lines 18–25); the
action payload is irrelevant to the table build and omitted. -/
structure Hotkey where
  sym : ℕ
  code : ℕ
  mask : ℕ
  deriving DecidableEq, Repr

/-- Embeds `Hotkey::new` (keys.rs lines 27–44): the keycode comes from
`sym_to_code(&sym).expect("expected sym to have code")` — a panic when the
keysym has no keycode, modelled as `none`. -/
def Hotkey.new (k : KeyboardMapping) (sym : ℕ) (mask : ℕ) : Option Hotkey :=
  (sym_to_code k sym).map (fun code => { sym := sym, code := code, mask := mask })

/-- Embeds `KeyHandler::get_hotkeys` (keys.rs lines 78–118) restricted to table
building: one `Hotkey::new` per configured (modifiers, key) entry; a
single unresolvable keysym panics the whole build (`none`). -/
def get_hotkeys (k : KeyboardMapping) (cfg : List (String × String)) :
    Option (List Hotkey) :=
  cfg.mapM (fun e => Hotkey.new k (parse_key e.2) (parse_modifiers e.1))

end KeysRs

namespace ConfigRs

/-- config.rs `ConfigDeserialized::default` (lines 118–231): the
(modifiers, key) pairs of the default hotkey list, in order (actions
omitted). -/
def default_hotkey_keys : List (String × String) :=
  [("CONTROL|MOD", "XK_Return"), ("CONTROL|MOD", "l"), ("MOD", "q"),
   ("CONTROL|MOD", "q"), ("MOD", "c"), ("MOD", "u"), ("MOD", "h"),
   ("MOD", "j"), ("MOD", "k"), ("MOD", "l"), ("MOD", "XK_Left"),
   ("MOD", "XK_Right"), ("MOD", "XK_Return")]
    ++ ((List.range 9).map (fun x => ("MOD", toString (x + 1))))
    ++ ((List.range 9).map (fun x => ("MOD|SHIFT", toString (x + 1))))

end ConfigRs

/-! ### Claim C5 — hotkey key-string parsing -/

/-- C5 evaluated on the code: keys.rs recognizes the alias `"Return"` and
the five `XF86_*` aliases, but the strings `"XK_Return"`, `"XK_Left"` and
`"XK_Right"` — which the default configuration in config.rs uses as hotkey
keys — are NOT recognized as aliases: they fall through to
first-character parsing and all three become the Latin-1 keysym of `'X'`
(0x58).  In particular the default `MOD+XK_Left` and `MOD+XK_Right`
entries collapse onto the same (modifier mask, keysym) pair. -/
theorem c5_key_alias_bug :
    KeysRs.parse_key "XK_Left" = KeysRs.keysym_from_char 'X'
    ∧ KeysRs.parse_key "XK_Right" = KeysRs.keysym_from_char 'X'
    ∧ KeysRs.parse_key "XK_Return" = KeysRs.keysym_from_char 'X'
    ∧ KeysRs.parse_key "XK_Left" ≠ KeysRs.XK_Left
    ∧ KeysRs.parse_key "XK_Right" ≠ KeysRs.XK_Right
    ∧ KeysRs.parse_key "XK_Return" ≠ KeysRs.XK_Return
    ∧ KeysRs.parse_key "Return" = KeysRs.XK_Return
    ∧ KeysRs.parse_key "XF86_AudioRaiseVolume" = KeysRs.XF86_AudioRaiseVolume
    ∧ KeysRs.parse_key "XF86_AudioLowerVolume" = KeysRs.XF86_AudioLowerVolume
    ∧ KeysRs.parse_key "XF86_AudioMute" = KeysRs.XF86_AudioMute
    ∧ KeysRs.parse_key "XF86_MonBrightnessUp" = KeysRs.XF86_MonBrightnessUp
    ∧ KeysRs.parse_key "XF86_MonBrightnessDown" = KeysRs.XF86_MonBrightnessDown
    ∧ ("MOD", "XK_Left") ∈ ConfigRs.default_hotkey_keys
    ∧ ("MOD", "XK_Right") ∈ ConfigRs.default_hotkey_keys
    ∧ (KeysRs.parse_modifiers "MOD", KeysRs.parse_key "XK_Left")
        = (KeysRs.parse_modifiers "MOD", KeysRs.parse_key "XK_Right") :=
  ⟨rfl, rfl, rfl, by decide, by decide, by decide, rfl, rfl, rfl, rfl, rfl, rfl,
   by decide, by decide, rfl⟩

/-! ### Claim C6 — hotkey-table build on unresolvable keysyms -/

/-- A two-keycode keyboard mapping: keycode 8 carries `Return` (0xff0d),
keycode 9 carries `'a'` (0x61). -/
abbrev kmDemo : KeysRs.KeyboardMapping :=
  { min_code := 8, max_code := 9, keysyms_per_keycode := 1
    keysyms := [0xff0d, 0x61] }

/-- A configuration whose second entry ('z') has no keycode in `kmDemo`. -/
abbrev cfgBad : List (String × String) := [("MOD", "Return"), ("MOD", "z")]

/-- A configuration every entry of which resolves in `kmDemo`. -/
abbrev cfgGood : List (String × String) := [("MOD", "Return"), ("MOD", "a")]

/-- Counterexample to C6: an entry whose keysym has no keycode is not
dropped — `Hotkey::new`'s `expect` panics the whole build (modelled as
`none`), so nothing is built from the remaining entries at all. -/
theorem c6_counterexample_build_panics :
    KeysRs.get_hotkeys kmDemo cfgBad = Option.none := by
  rfl

theorem mapM_option_spec {α β : Type} (f : α → Option β) (l : List α) :
    ((l.mapM f).isSome ↔ ∀ e ∈ l, (f e).isSome)
      ∧ ∀ bs, l.mapM f = some bs → bs.length = l.length := by
  induction l with
  | nil =>
      refine ⟨⟨fun _ e he => absurd he (List.not_mem_nil e), fun _ => rfl⟩, ?_⟩
      intro bs hbs
      have h0 : (some ([] : List β)) = some bs := hbs
      cases h0
      rfl
  | cons a t ih =>
      rw [List.mapM_cons]
      refine ⟨⟨?_, ?_⟩, ?_⟩
      · intro hs e he
        cases hfa : f a with
        | none => rw [hfa] at hs; simp at hs
        | some b =>
            rw [hfa] at hs
            cases hmt : t.mapM f with
            | none => rw [hmt] at hs; simp at hs
            | some bs0 =>
                rcases List.mem_cons.mp he with rfl | het
                · simp [hfa]
                · exact ih.1.mp (by rw [hmt]; rfl) e het
      · intro hall
        cases hfa : f a with
        | none =>
            have := hall a (List.mem_cons_self a t)
            rw [hfa] at this
            simp at this
        | some b =>
            cases hmt : t.mapM f with
            | none =>
                have := ih.1.mpr (fun e he => hall e (List.mem_cons_of_mem a he))
                rw [hmt] at this
                simp at this
            | some bs0 => simp [hfa, hmt]
      · intro bs hbs
        cases hfa : f a with
        | none => rw [hfa] at hbs; simp at hbs
        | some b =>
            rw [hfa] at hbs
            cases hmt : t.mapM f with
            | none => rw [hmt] at hbs; simp at hbs
            | some bs0 =>
                rw [hmt] at hbs
                have hbs2 : some (b :: bs0) = some bs := hbs
                cases hbs2
                have hlen := ih.2 bs0 hmt
                simp [hlen]

/-- C6 (amended): the table build completes exactly when every configured
entry's keysym resolves to a keycode in the current mapping — a single
failure panics the build via `expect` — and when it completes, no entry
has been dropped: the table length equals the configuration length. -/
theorem c6_hotkey_build (k : KeysRs.KeyboardMapping)
    (cfg : List (String × String)) :
    ((KeysRs.get_hotkeys k cfg).isSome ↔
      ∀ e ∈ cfg, (KeysRs.sym_to_code k (KeysRs.parse_key e.2)).isSome)
    ∧ ∀ hks, KeysRs.get_hotkeys k cfg = some hks → hks.length = cfg.length := by
  have h := mapM_option_spec
    (fun e : String × String =>
      KeysRs.Hotkey.new k (KeysRs.parse_key e.2) (KeysRs.parse_modifiers e.1)) cfg
  constructor
  · rw [show KeysRs.get_hotkeys k cfg = cfg.mapM _ from rfl]
    rw [h.1]
    constructor
    · intro hall e he
      have := hall e he
      unfold KeysRs.Hotkey.new at this
      simpa [Option.isSome_map] using this
    · intro hall e he
      have := hall e he
      unfold KeysRs.Hotkey.new
      simpa [Option.isSome_map] using this
  · exact h.2

/-- Witness for C6's amended theorem: the fully-resolvable configuration
builds a two-entry table, one entry per configuration line. -/
theorem c6_hotkey_build_witness :
    (KeysRs.get_hotkeys kmDemo cfgGood
        = some [⟨0xff0d, 8, 64⟩, ⟨0x61, 9, 64⟩]) ∧
    ((KeysRs.get_hotkeys kmDemo cfgGood).isSome ↔
      ∀ e ∈ cfgGood, (KeysRs.sym_to_code kmDemo (KeysRs.parse_key e.2)).isSome) ∧
    ([(⟨0xff0d, 8, 64⟩ : KeysRs.Hotkey), ⟨0x61, 9, 64⟩]).length = cfgGood.length :=
  ⟨rfl, (c6_hotkey_build kmDemo cfgGood).1,
   (c6_hotkey_build kmDemo cfgGood).2 [⟨0xff0d, 8, 64⟩, ⟨0x61, 9, 64⟩] rfl⟩
